import Mathlib

/-!
# Verification of the selector-generation core

This file shallowly embeds the selector synthesis engine of the repository
(`packages/playwright-core/src/server/injected/selectorGenerator2.ts`) and the
role selector engine (`roleSelectorEngine.ts`), and proves or refutes the
frozen claims about them.

Modelling conventions:
* DOM: a rose tree of text nodes and elements; an element is identified by its
  path (list of child indices) from the tree root.  The tree root plays the
  part of `document.documentElement`; the document itself is modelled as the
  `none` scope.  Shadow DOM is not modelled (none of the claims concern it);
  `parentElementOrShadowHost` is therefore the plain parent.
* External capability providers (ARIA role computation, accessible-name
  computation, text computation, CSS matching/query execution) are consumed by
  the engine through an interface, exactly as the specification prescribes
  ("role/name computation is consumed as a capability"), and are modelled as
  function fields of a `Caps` record.
* JavaScript numbers appearing in the engine are small non-negative integers;
  `x | 0` equals truncation, which for the values in range equals `Nat`
  floor division (noted where used).  `Array.prototype.indexOf` may return
  `-1`, so indices are `Int` where the source allows a missing element.
* Mutable per-call caches of the source memoize pure functions of the
  unmutated DOM and are dropped; lazily computed CSS strings (`css: () =>
  string` thunks) are forced at most once and are pure, so they are stored
  eagerly.
-/

namespace PWGen

/-! ## JavaScript-style string helpers -/

/-- Does `sub` occur in `l` exactly at position `i`? -/
def subAt (l sub : List Char) (i : Nat) : Bool :=
  decide (sub = (l.drop i).take sub.length)

/-- JS `text.indexOf(sub, start)`: smallest position `i ≥ start` where `sub`
occurs, if any. -/
def strIndexOfFromList (l sub : List Char) (start : Nat) : Option Nat :=
  (List.range (l.length + 1)).find? (fun i => decide (start ≤ i) && subAt l sub i)

/-- JS `text.indexOf(sub, start)` on strings, as an optional position. -/
def strIndexOfFrom (s sub : String) (start : Nat) : Option Nat :=
  strIndexOfFromList s.data sub.data start

/-- JS `text.includes(sub)`. -/
def strContains (s sub : String) : Bool :=
  (strIndexOfFrom s sub 0).isSome

/-- Source `hasTwoOccurences` (selectorGenerator2.ts): a first match, then a
second match starting after the end of the first. -/
def hasTwoOccurences (text substr : String) : Bool :=
  match strIndexOfFrom text substr 0 with
  | none => false
  | some first => (strIndexOfFrom text substr (first + substr.length)).isSome

/-- Number of (non-overlapping, leftmost) occurrences, counted the way
repeated `indexOf` stepping by the pattern length counts them.  Fueled to make
termination obvious; the fuel `l.length + 1` is always sufficient for a
non-empty pattern. -/
def occCountFuel (l sub : List Char) : Nat → Nat → Nat
  | _, 0 => 0
  | start, fuel + 1 =>
    match strIndexOfFromList l sub start with
    | none => 0
    | some i => 1 + occCountFuel l sub (i + sub.length) fuel

/-- Occurrence count of `sub` in `s`. -/
def occCount (s sub : String) : Nat :=
  occCountFuel s.data sub.data 0 (s.data.length + 1)

/-- JS `Array.prototype.join(sep)` (also used for string building, since the
corresponding core string functions do not reduce in the kernel). -/
def joinSep (sep : String) : List String → String
  | [] => ""
  | [s] => s
  | s :: rest => s ++ sep ++ joinSep sep rest

/-- Character-list based lower-casing (kernel-reducible `toLowerCase`). -/
def lowerStr (s : String) : String := ⟨s.data.map Char.toLower⟩

/-- Character-list based upper-casing (kernel-reducible `toUpperCase`). -/
def upperStr (s : String) : String := ⟨s.data.map Char.toUpper⟩

/-- Character-list based `substring(0, n)`. -/
def takeStr (s : String) (n : Nat) : String := ⟨s.data.take n⟩

/-- Character-list based `trim()`. -/
def trimStr (s : String) : String :=
  ⟨((s.data.dropWhile Char.isWhitespace).reverse.dropWhile Char.isWhitespace).reverse⟩

/-- Character-list based `startsWith`. -/
def startsWithStr (s pre : String) : Bool :=
  decide (pre.data = s.data.take pre.data.length)

/-- Split into maximal whitespace-free words. -/
def wordsAux : List Char → List Char → List (List Char)
  | [], acc => if acc = [] then [] else [acc.reverse]
  | c :: rest, acc =>
    if c.isWhitespace then
      (if acc = [] then wordsAux rest [] else acc.reverse :: wordsAux rest [])
    else wordsAux rest (c :: acc)

def splitWS (s : String) : List String :=
  (wordsAux s.data []).map (fun l => ⟨l⟩)

/-- Global (left-to-right, non-overlapping) replacement; fueled for
structural recursion, the fuel is never exhausted. -/
def replaceAllFuel (pat rep : List Char) : Nat → List Char → List Char
  | 0, l => l
  | fuel + 1, l =>
    if pat = [] then l
    else if pat = l.take pat.length then rep ++ replaceAllFuel pat rep fuel (l.drop pat.length)
    else
      match l with
      | [] => []
      | c :: rest => c :: replaceAllFuel pat rep fuel rest

def replaceAllStr (s pat rep : String) : String :=
  ⟨replaceAllFuel pat.data rep.data (s.data.length + 1) s.data⟩

/-- Modelled from the spec: `normalizeWhiteSpace` from the missing
`stringUtils` module — whitespace runs collapse to a single space and the
result is trimmed (the spec's "normalized text"). -/
def normalizeWhiteSpace (s : String) : String :=
  joinSep " " (splitWS s)

/-- Modelled from the spec: `escapeForAttributeSelector` from the missing
`stringUtils` module — the value is quoted, with a strictness suffix. -/
def escapeForAttributeSelector (value : String) (exact : Bool) : String :=
  "\"" ++ value ++ "\"" ++ (if exact then "s" else "i")

/-- Modelled from the spec: `escapeForTextSelector` from the missing
`stringUtils` module — the text is quoted, with a strictness suffix. -/
def escapeForTextSelector (text : String) (exact : Bool) : String :=
  "\"" ++ text ++ "\"" ++ (if exact then "s" else "i")

/-- Modelled from the spec: `cssEscape` from the missing `stringUtils`
module — characters outside the CSS identifier alphabet are backslash
escaped. -/
def cssEscapeChar (c : Char) : List Char :=
  if c.isAlphanum || c = '-' || c = '_' then [c] else ['\\', c]

def cssEscape (s : String) : String :=
  ⟨s.data.flatMap cssEscapeChar⟩

/-- Source `quoteAttributeValue`: CSS-escape, then undo the escaping of
spaces, and wrap in double quotes. -/
def quoteAttributeValue (text : String) : String :=
  "\"" ++ replaceAllStr (cssEscape text) "\\ " " " ++ "\""

/-- Source `textLengthScore`: `min(kTextLengthMaxPenalty, (text.length/10)|0)`
(`|0` is floor here since the operand is a small non-negative number). -/
def kTextLengthMaxPenalty : Nat := 10

def textLengthScore (text : String) : Nat :=
  min kTextLengthMaxPenalty (text.length / 10)

/-- Source `isGuidLike`: counts character-class transitions; `-` and `_` are
skipped, an upper→lower transition is not counted.  The comparison
`transitionCount >= id.length / 4` is on JS floats, i.e. `4 * transitions ≥
length`. -/
inductive CharType where
  | lower | upper | digit | other
deriving DecidableEq

def charTypeOf (c : Char) : CharType :=
  if 'a' ≤ c ∧ c ≤ 'z' then .lower
  else if 'A' ≤ c ∧ c ≤ 'Z' then .upper
  else if '0' ≤ c ∧ c ≤ '9' then .digit
  else .other

def isGuidLikeStep (st : Option CharType × Nat) (c : Char) : Option CharType × Nat :=
  if c = '-' ∨ c = '_' then st
  else
    let characterType := charTypeOf c
    if characterType = .lower ∧ st.1 = some .upper then (some characterType, st.2)
    else if st.1.isSome ∧ st.1 ≠ some characterType then (some characterType, st.2 + 1)
    else (some characterType, st.2)

def isGuidLike (id : String) : Bool :=
  4 * (id.data.foldl isGuidLikeStep (none, 0)).2 ≥ id.length

/-! ## DOM model -/

/-- A DOM node: a text node, or an element with tag name, attributes and
children. -/
inductive DomNode where
  | text (value : String)
  | elem (nodeName : String) (attrs : List (String × String)) (children : List DomNode)

/-- An element is addressed by its path of child indices from the tree root
(the document element). -/
abbrev EPath := List Nat

def DomNode.childrenOf : DomNode → List DomNode
  | .text _ => []
  | .elem _ _ cs => cs

def nodeAt (d : DomNode) : EPath → Option DomNode
  | [] => some d
  | i :: p =>
    match d.childrenOf.get? i with
    | some c => nodeAt c p
    | none => none

def nodeNameAt (d : DomNode) (p : EPath) : String :=
  match nodeAt d p with
  | some (.elem n _ _) => n
  | _ => ""

/-- JS `element.getAttribute(name)`: `null` becomes `none`. -/
def getAttr (d : DomNode) (p : EPath) (name : String) : Option String :=
  match nodeAt d p with
  | some (.elem _ attrs _) => (attrs.find? (fun kv => kv.1 = name)).map (·.2)
  | _ => none

/-- JS truthiness of a `getAttribute` result (`null` and `""` are falsy). -/
def attrTruthy (o : Option String) : Bool :=
  match o with
  | some s => s ≠ ""
  | none => false

/-- Modelled from the spec: `parentElementOrShadowHost` from the missing
`domUtils` module; without shadow DOM this is the parent element, `none` at
the document element. -/
def parentOf : EPath → Option EPath
  | [] => none
  | p => some p.dropLast

/-- Is `r` a prefix of `e` (element `e` lies in the subtree of `r`,
including `r` itself)? -/
def pathIn (r e : EPath) : Bool :=
  r == e.take r.length

/-- Modelled from the spec: `isInsideScope(scope, element)` from the missing
`domUtils` module — `scope.contains(element)` semantics; the document
contains every element. -/
def inScope (root : Option EPath) (e : EPath) : Bool :=
  match root with
  | none => true
  | some r => pathIn r e

/-- Paths of the element children of the element at `p` (text nodes keep
their child index but are not element children). -/
def elemChildPaths (d : DomNode) (p : EPath) : List EPath :=
  match nodeAt d p with
  | some (.elem _ _ cs) =>
    ((List.range cs.length).filter (fun i =>
      match cs.get? i with
      | some (.elem _ _ _) => true
      | _ => false)).map (fun i => p ++ [i])
  | _ => []
/-! ## Capability providers (external collaborators, consumed as an
interface per the spec) -/

/-- Result of `getElementAccessibleName(element, false)` as consumed by the
generator: the name plus the optional provenance set of elements the name's
text came from. -/
structure AccNameResult where
  accessibleName : String
  textFrom : Option (List EPath)

/-- The DOM capability providers of the spec (role computation, ARIA
hiddenness, accessible-name computation, text computation, label lookup, CSS
matching and query execution).  The engine consumes these as functions of the
(unmutated) DOM. -/
structure Caps where
  ariaRole : EPath → Option String
  hiddenForAria : EPath → Bool
  accName : EPath → AccNameResult
  rawText : EPath → String
  labelsOf : EPath → List String
  matchesCSS : EPath → String → Bool
  queryCSS : Option EPath → String → List EPath
  finalQuery : String → Option EPath → List EPath

/-- A generation context: the DOM snapshot plus its capability providers. -/
structure Ctx where
  dom : DomNode
  caps : Caps

/-- Source `GenerateSelectorOptions`. -/
structure GenOptions where
  testIdAttributeName : String
  retargetForAction : Bool
  retargetForText : Bool
  omitInternalEngines : Bool
  omitTextFrom : Option EPath
  root : Option EPath
deriving DecidableEq

/-! ## Selector tokens, candidates and the candidate collection -/

/-- Source score constants. -/
def kTestIdScore : Nat := 1
def kOtherTestIdScore : Nat := 2
def kIframeByAttributeScore : Nat := 10
def kPlaceholderScore : Nat := 100
def kLabelScore : Nat := 120
def kRoleWithNameScore : Nat := 140
def kAltTextScore : Nat := 160
def kTextScore : Nat := 180
def kTitleScore : Nat := 200
def kCSSIdScore : Nat := 500
def kRoleWithoutNameScore : Nat := 510
def kCSSInputTypeNameScore : Nat := 520
def kExactPenalty : Nat := 5
def kXPathParentsScore : Nat := 1000
def kChainScorePenalty : Nat := 1
def kNthScoreMin : Nat := 5000
def kNthScoreMax : Nat := 10000
def kCSSFallbackScore : Nat := 10000

/-- Source `SelectorToken` (a tagged union).  The `css` payload is stored as
the already-computed string: the source's `() => string` thunk is pure and
forced at most once, so eager evaluation is observationally equal. -/
inductive SelectorToken where
  | role (score : Nat) (roleName : String) (accessibleName : Option String) (exact : Bool)
  | css (score : Nat) (cssText : String)
  | nth (score : Nat) (index : Int)
  | text (score : Nat) (textValue : String) (exact : Bool)
  | testId (score : Nat) (testIdValue : String) (exact : Bool)
  | xpath (score : Nat) (xpathValue : String)
  | attr (score : Nat) (attrName : String) (value : String) (exact : Bool)
deriving DecidableEq

def SelectorToken.score : SelectorToken → Nat
  | .role s _ _ _ => s
  | .css s _ => s
  | .nth s _ => s
  | .text s _ _ => s
  | .testId s _ _ => s
  | .xpath s _ => s
  | .attr s _ _ _ => s

/-- Source `_stringifyToken`. -/
def stringifyToken : SelectorToken → String
  | .css _ cssText => cssText
  | .nth _ index => "nth=" ++ toString index
  | .text _ t exact => "internal:text=" ++ escapeForTextSelector t exact
  | .testId _ v exact => "internal:testid=" ++ escapeForAttributeSelector v exact
  | .xpath _ x => if startsWithStr x ".." then x else "xpath=" ++ x
  | .attr _ a v exact => "internal:attr=[" ++ a ++ "=" ++ escapeForAttributeSelector v exact ++ "]"
  | .role _ r name exact =>
    let nameClause :=
      match name with
      | some nm => "[name=" ++ escapeForAttributeSelector nm exact ++ "]"
      | none => ""
    "internal:role=" ++ r ++ nameClause

/-- Source `SelectorCandidate`: an ordered non-empty token sequence.  The
score is the constructor's computation: sum of token scores plus the square
of (token count − 1) times the chain penalty. -/
structure SelectorCandidate where
  tokens : List SelectorToken
deriving DecidableEq

def SelectorCandidate.score (c : SelectorCandidate) : Nat :=
  (c.tokens.map SelectorToken.score).sum
    + (c.tokens.length - 1) * (c.tokens.length - 1) * kChainScorePenalty

/-- The score of the positional-index token appended by `appendNth`:
`Math.min(kNthScoreMax, kNthScoreMin * ((1 + index / 4) | 0))`.  The source
index is a JS array index (`indexOf` result, hence `≥ -1`); on that range the
float truncation `(1 + index / 4) | 0` equals `((index + 4).toNat) / 4`. -/
def nthTokenScore (index : Int) : Nat :=
  min kNthScoreMax (kNthScoreMin * ((index + 4).toNat / 4))

/-- Source `appendNth` (the `total` argument is unused by the source body). -/
def SelectorCandidate.appendNth (c : SelectorCandidate) (index : Int) (total : Nat) :
    SelectorCandidate :=
  let _ := total
  ⟨c.tokens ++ [.nth (nthTokenScore index) index]⟩

/-- Source `append`. -/
def SelectorCandidate.append (c other : SelectorCandidate) : SelectorCandidate :=
  ⟨c.tokens ++ other.tokens⟩

/-- Source `selector()`: stringified tokens joined by `" >> "`. -/
def SelectorCandidate.selector (c : SelectorCandidate) : String :=
  joinSep " >> " (c.tokens.map stringifyToken)

/-- Source `SelectorCandidateCollection`: holds the single best candidate
seen so far. -/
structure SelectorCandidateCollection where
  best? : Option SelectorCandidate
deriving DecidableEq

def SelectorCandidateCollection.empty : SelectorCandidateCollection := ⟨none⟩

/-- Source `updateWithCandidate`: replace only on strictly lower score. -/
def SelectorCandidateCollection.updateWithCandidate
    (col : SelectorCandidateCollection) (candidate : SelectorCandidate) :
    SelectorCandidateCollection :=
  match col.best? with
  | none => ⟨some candidate⟩
  | some b => if candidate.score < b.score then ⟨some candidate⟩ else col

/-- Source `updateWithCollection`. -/
def SelectorCandidateCollection.updateWithCollection
    (col other : SelectorCandidateCollection) : SelectorCandidateCollection :=
  match other.best? with
  | some b => col.updateWithCandidate b
  | none => col

/-- Source `best()`. -/
def SelectorCandidateCollection.best (col : SelectorCandidateCollection) :
    Option SelectorCandidate :=
  col.best?

/-- Source `chain`: defined only when both halves resolved. -/
def SelectorCandidateCollection.chain
    (col other : SelectorCandidateCollection) : SelectorCandidateCollection :=
  match col.best?, other.best? with
  | some a, some b => ⟨some (a.append b)⟩
  | _, _ => ⟨none⟩

/-! ## Per-call lookup tables (`_preprocessTree`) -/

/-- Source `pushToListMap`: append to the list for `key`, creating it at the
end on first use (JS `Map` insertion order). -/
def pushToListMap (m : List (String × List EPath)) (key : String) (element : EPath) :
    List (String × List EPath) :=
  if m.any (fun kv => kv.1 = key) then
    m.map (fun kv => if kv.1 = key then (kv.1, kv.2 ++ [element]) else kv)
  else m ++ [(key, [element])]

/-- JS `map.get(key) || []`. -/
def listMapGet (m : List (String × List EPath)) (key : String) : List EPath :=
  match m.find? (fun kv => kv.1 = key) with
  | some kv => kv.2
  | none => []

/-- The lookup tables built by `_preprocessTree`. -/
structure IndexTables where
  roleToElements : List (String × List EPath)
  textToElements : List (String × List EPath)
  testIdAttributeToElements : List (String × List EPath)
  attrIdMap : List (String × List EPath)
  attrDataTestidMap : List (String × List EPath)
  attrDataTestDashIdMap : List (String × List EPath)
  attrDataTestMap : List (String × List EPath)
  altElements : List EPath
  placeholderElements : List EPath
  titleToElements : List (String × List EPath)
  labelledElements : List (EPath × List (String × String))
deriving DecidableEq

def IndexTables.empty : IndexTables :=
  ⟨[], [], [], [], [], [], [], [], [], [], []⟩

/-- Source `_getElementText` (memoized in source): normalized full text plus
its lower-cased form. -/
structure TextEntry where
  full : String
  lowerCase : String
deriving DecidableEq

def getElementText (ctx : Ctx) (element : EPath) : TextEntry :=
  let full := normalizeWhiteSpace (ctx.caps.rawText element)
  ⟨full, lowerStr full⟩

/-- Source `_getElementRole` (memoized in source): hidden-for-ARIA elements
have no role, and `presentation`/`none` are dropped. -/
def getElementRole (ctx : Ctx) (element : EPath) : Option String :=
  let role := if ctx.caps.hiddenForAria element then none else ctx.caps.ariaRole element
  match role with
  | some r => if r = "presentation" ∨ r = "none" then none else some r
  | none => none

/-- Source `AccessibleNameCacheEntry` with the upper-cased name. -/
structure AccEntry where
  accessibleName : String
  upperCase : String
  textFrom : Option (List EPath)

/-- Source `_getElementAccessibleName` (memoized in source). -/
def getElementAccessibleName (ctx : Ctx) (element : EPath) : AccEntry :=
  let n := ctx.caps.accName element
  ⟨n.accessibleName, upperStr n.accessibleName, n.textFrom⟩

/-- Source `_getRoleList` (memoized in source): the role table filtered to
the scope. -/
def getRoleList (tables : IndexTables) (root : Option EPath) (role : String) :
    List EPath :=
  (listMapGet tables.roleToElements role).filter (fun e => inScope root e)

/-- Source `_preprocessTree`: one pass over all elements in scope.  Note the
source reads `targetElement.getAttribute(...)` — the generation target's
attributes, not the visited element's — when keying the test-id, `id`,
`data-test*` and `title` tables, and reads `options.testIdAttributeName`
instead of the loop's `attr` in the `id`/`data-test*` loop; this translation
is faithful to that. -/
def preprocessStep (ctx : Ctx) (targetElement : EPath) (options : GenOptions)
    (tables : IndexTables) (element : EPath) : IndexTables :=
    let tables :=
      match getElementRole ctx element with
      | some role => { tables with roleToElements := pushToListMap tables.roleToElements role element }
      | none => tables
    let text := (getElementText ctx element).full
    let tables :=
      if text ≠ "" ∧ text.length ≤ 80 then
        { tables with textToElements := pushToListMap tables.textToElements text element }
      else tables
    let testIdOfTarget := getAttr ctx.dom targetElement options.testIdAttributeName
    let tables :=
      if attrTruthy testIdOfTarget then
        { tables with testIdAttributeToElements :=
            pushToListMap tables.testIdAttributeToElements (testIdOfTarget.getD "") element }
      else tables
    let tables :=
      if attrTruthy (getAttr ctx.dom targetElement options.testIdAttributeName) then
        let value := (getAttr ctx.dom targetElement options.testIdAttributeName).getD ""
        { tables with
          attrIdMap := pushToListMap tables.attrIdMap value element,
          attrDataTestidMap := pushToListMap tables.attrDataTestidMap value element,
          attrDataTestDashIdMap := pushToListMap tables.attrDataTestDashIdMap value element,
          attrDataTestMap := pushToListMap tables.attrDataTestMap value element }
      else tables
    let tables :=
      if attrTruthy (getAttr ctx.dom element "alt") then
        { tables with altElements := tables.altElements ++ [element] }
      else tables
    let tables :=
      if attrTruthy (getAttr ctx.dom element "placeholder") then
        { tables with placeholderElements := tables.placeholderElements ++ [element] }
      else tables
    let titleOfTarget := getAttr ctx.dom targetElement "title"
    let tables :=
      if attrTruthy titleOfTarget then
        { tables with titleToElements :=
            pushToListMap tables.titleToElements (normalizeWhiteSpace (titleOfTarget.getD "")) element }
      else tables
    let labels := ctx.caps.labelsOf element
    let tables :=
      if labels ≠ [] then
        { tables with labelledElements := tables.labelledElements ++
            [(element, labels.map (fun l =>
              let full := normalizeWhiteSpace (trimStr l)
              (full, lowerStr full)))] }
      else tables
    tables

def preprocessTree (ctx : Ctx) (root : Option EPath) (targetElement : EPath)
    (options : GenOptions) : IndexTables :=
  let allElements := ctx.caps.queryCSS root "*"
  allElements.foldl (preprocessStep ctx targetElement options) IndexTables.empty

/-! ## Candidate generators -/

/-- JS `elements.indexOf(target)`: `-1` when absent. -/
def jsIndexOf (l : List EPath) (x : EPath) : Int :=
  match l.findIdx? (fun y => y = x) with
  | some i => (i : Int)
  | none => -1

/-- The `tryUpdate` pattern shared by the generators: append a positional
index token when the uniqueness list has more than one element. -/
def nthIfMultiple (targetElement : EPath) (elements : List EPath)
    (cand : SelectorCandidate) : SelectorCandidate :=
  if elements.length > 1 then cand.appendNth (jsIndexOf elements targetElement) elements.length
  else cand

/-- Source `_tryInternalEngines`, as the ordered list of candidates it offers
to the collection.  The `alt` branch emits tokens whose attribute name is the
string `placeholder`, as the source does. -/
def tryInternalEnginesCandidates (ctx : Ctx) (tables : IndexTables) (root : Option EPath)
    (targetElement : EPath) (options : GenOptions) : List SelectorCandidate :=
  if options.omitInternalEngines ∨ nodeNameAt ctx.dom targetElement = "FRAME"
      ∨ nodeNameAt ctx.dom targetElement = "IFRAME" then []
  else
    let testIdCands :=
      let testIdOpt := getAttr ctx.dom targetElement options.testIdAttributeName
      if attrTruthy testIdOpt then
        let testId := testIdOpt.getD ""
        [nthIfMultiple targetElement
          ((listMapGet tables.testIdAttributeToElements testId).filter (fun e => inScope root e))
          ⟨[.testId kTestIdScore testId true]⟩]
      else []
    let placeholderCands :=
      if (nodeNameAt ctx.dom targetElement = "INPUT" ∨ nodeNameAt ctx.dom targetElement = "TEXTAREA")
          ∧ attrTruthy (getAttr ctx.dom targetElement "placeholder") then
        let placeholder := (getAttr ctx.dom targetElement "placeholder").getD ""
        let strictElements := (tables.placeholderElements.filter (fun e => inScope root e)).filter
          (fun e => getAttr ctx.dom e "placeholder" = some placeholder)
        let lax := lowerStr placeholder
        let laxElements := (tables.placeholderElements.filter (fun e => inScope root e)).filter
          (fun e => strContains (lowerStr ((getAttr ctx.dom e "placeholder").getD "")) lax)
        [nthIfMultiple targetElement strictElements
           ⟨[.attr (kPlaceholderScore + kExactPenalty) "placeholder" placeholder true]⟩,
         nthIfMultiple targetElement laxElements
           ⟨[.attr kPlaceholderScore "placeholder" placeholder false]⟩]
      else []
    let altCands :=
      if attrTruthy (getAttr ctx.dom targetElement "alt")
          ∧ nodeNameAt ctx.dom targetElement ∈ ["APPLET", "AREA", "IMG", "INPUT"] then
        let alt := (getAttr ctx.dom targetElement "alt").getD ""
        let strictElements := (tables.altElements.filter (fun e => inScope root e)).filter
          (fun e => getAttr ctx.dom e "alt" = some alt)
        let lax := lowerStr alt
        let laxElements := (tables.altElements.filter (fun e => inScope root e)).filter
          (fun e => strContains (lowerStr ((getAttr ctx.dom e "alt").getD "")) lax)
        [nthIfMultiple targetElement strictElements
           ⟨[.attr (kAltTextScore + kExactPenalty) "placeholder" alt true]⟩,
         nthIfMultiple targetElement laxElements
           ⟨[.attr kAltTextScore "placeholder" alt false]⟩]
      else []
    let titleCands :=
      let titleOpt := getAttr ctx.dom targetElement "title"
      if attrTruthy titleOpt then
        let title := normalizeWhiteSpace (titleOpt.getD "")
        [nthIfMultiple targetElement
          ((listMapGet tables.titleToElements title).filter (fun e => inScope root e))
          ⟨[.attr (kTitleScore + kExactPenalty) "title" title true]⟩]
      else []
    testIdCands ++ placeholderCands ++ altCands ++ titleCands

/-- The regular expression `^[a-zA-Z][a-zA-Z0-9\-\_]+$` of `_tryCSS`. -/
def isSimpleIdForCSS (id : String) : Bool :=
  match id.data with
  | [] => false
  | c :: rest =>
    (('a' ≤ c ∧ c ≤ 'z') ∨ ('A' ≤ c ∧ c ≤ 'Z')) ∧ rest ≠ []
      ∧ rest.all (fun d =>
          ('a' ≤ d ∧ d ≤ 'z') ∨ ('A' ≤ d ∧ d ≤ 'Z') ∨ ('0' ≤ d ∧ d ≤ '9') ∨ d = '-' ∨ d = '_')

/-- The `#id` candidate of `_tryCSS`. -/
def tryCSSIdCandidates (ctx : Ctx) (tables : IndexTables) (root : Option EPath)
    (targetElement : EPath) : List SelectorCandidate :=
  match getAttr ctx.dom targetElement "id" with
  | some id =>
    if id ≠ "" ∧ isGuidLike id then
      [nthIfMultiple targetElement
        ((listMapGet tables.attrIdMap id).filter (fun e => inScope root e))
        ⟨[.css kCSSIdScore
            (if isSimpleIdForCSS id then "#" ++ id
             else "[id=" ++ quoteAttributeValue id ++ "]")]⟩]
    else []
  | none => []

/-- One `data-test*` attribute candidate of `_tryCSS`. -/
def tryCSSDataAttrCandidates (ctx : Ctx) (root : Option EPath) (targetElement : EPath)
    (options : GenOptions) (attrName : String) (tbl : List (String × List EPath)) :
    List SelectorCandidate :=
  match getAttr ctx.dom targetElement attrName with
  | some value =>
    if value ≠ "" ∧ (attrName ≠ options.testIdAttributeName
        ∨ nodeNameAt ctx.dom targetElement = "FRAME"
        ∨ nodeNameAt ctx.dom targetElement = "IFRAME") then
      [nthIfMultiple targetElement
        ((listMapGet tbl value).filter (fun e => inScope root e))
        ⟨[.css kOtherTestIdScore ("[" ++ attrName ++ "=" ++ quoteAttributeValue value ++ "]")]⟩]
    else []
  | none => []

/-- The literal `cssCandidates` array of `_tryCSS` (frame attributes, input
types, bare form tags, name attributes), each with its score. -/
def cssLiteralList (ctx : Ctx) (targetElement : EPath) : List (String × Nat) :=
  (if nodeNameAt ctx.dom targetElement = "FRAME" ∨ nodeNameAt ctx.dom targetElement = "IFRAME" then
    (["name", "title"].filter (fun attrNm => attrTruthy (getAttr ctx.dom targetElement attrNm))).map
      (fun attrNm =>
        (cssEscape (lowerStr (nodeNameAt ctx.dom targetElement)) ++ "[" ++ attrNm ++ "="
           ++ quoteAttributeValue ((getAttr ctx.dom targetElement attrNm).getD "") ++ "]",
         kIframeByAttributeScore))
  else [])
  ++ (if (nodeNameAt ctx.dom targetElement = "INPUT" ∨ nodeNameAt ctx.dom targetElement = "TEXTAREA")
        ∧ getAttr ctx.dom targetElement "type" ≠ some "hidden"
        ∧ attrTruthy (getAttr ctx.dom targetElement "type") then
    [(cssEscape (lowerStr (nodeNameAt ctx.dom targetElement)) ++ "[type="
        ++ quoteAttributeValue ((getAttr ctx.dom targetElement "type").getD "") ++ "]",
      kCSSInputTypeNameScore)]
  else [])
  ++ (if (nodeNameAt ctx.dom targetElement = "INPUT" ∨ nodeNameAt ctx.dom targetElement = "TEXTAREA"
        ∨ nodeNameAt ctx.dom targetElement = "SELECT")
        ∧ getAttr ctx.dom targetElement "type" ≠ some "hidden" then
    [(cssEscape (lowerStr (nodeNameAt ctx.dom targetElement)), kCSSInputTypeNameScore + 1)]
  else [])
  ++ (if attrTruthy (getAttr ctx.dom targetElement "name")
        ∧ nodeNameAt ctx.dom targetElement ∈ ["BUTTON", "FORM", "FIELDSET", "FRAME", "IFRAME",
            "INPUT", "KEYGEN", "OBJECT", "OUTPUT", "SELECT", "TEXTAREA", "MAP", "META", "PARAM"] then
    [(cssEscape (lowerStr (nodeNameAt ctx.dom targetElement)) ++ "[name="
        ++ quoteAttributeValue ((getAttr ctx.dom targetElement "name").getD "") ++ "]",
      kCSSInputTypeNameScore)]
  else [])

/-- Source `_tryCSS`, as the ordered list of candidates it offers to the
collection. -/
def tryCSSCandidates (ctx : Ctx) (tables : IndexTables) (root : Option EPath)
    (targetElement : EPath) (options : GenOptions) : List SelectorCandidate :=
  tryCSSIdCandidates ctx tables root targetElement
  ++ (tryCSSDataAttrCandidates ctx root targetElement options "data-testid" tables.attrDataTestidMap
    ++ tryCSSDataAttrCandidates ctx root targetElement options "data-test-id" tables.attrDataTestDashIdMap
    ++ tryCSSDataAttrCandidates ctx root targetElement options "data-test" tables.attrDataTestMap)
  ++ (cssLiteralList ctx targetElement).map (fun cs =>
    let elements := ctx.caps.queryCSS root cs.1
    nthIfMultiple targetElement elements ⟨[.css cs.2 cs.1]⟩)

/-- Source `_tryRole`, as the ordered list of candidates it offers to the
collection: the role-only candidate, then the inexact role+name candidate,
then — only when inexact was not unique — the exact role+name candidate;
name candidates are skipped when the name's text provenance meets the
`omitTextFrom` boundary. -/
def tryRoleCandidates (ctx : Ctx) (tables : IndexTables) (root : Option EPath)
    (targetElement : EPath) (options : GenOptions) : List SelectorCandidate :=
  if options.omitInternalEngines then []
  else
    match getElementRole ctx targetElement with
    | none => []
    | some role =>
      let elements := getRoleList tables root role
      let withoutName := nthIfMultiple targetElement elements
        ⟨[.role kRoleWithoutNameScore role none false]⟩
      let entry := getElementAccessibleName ctx targetElement
      let skipName :=
        match options.omitTextFrom, entry.textFrom with
        | some om, some tf => tf.contains om || tf.any (fun e => inScope (some om) e)
        | _, _ => false
      if skipName then [withoutName]
      else
        let filteredLax := elements.filter (fun e =>
          strContains (getElementAccessibleName ctx e).upperCase entry.upperCase)
        let candLax := nthIfMultiple targetElement filteredLax
          ⟨[.role (kRoleWithNameScore + textLengthScore entry.accessibleName) role
              (some entry.accessibleName) false]⟩
        if filteredLax.length = 1 then [withoutName, candLax]
        else
          let filteredExact := elements.filter (fun e =>
            (getElementAccessibleName ctx e).accessibleName = entry.accessibleName)
          let candExact := nthIfMultiple targetElement filteredExact
            ⟨[.role (kRoleWithNameScore + textLengthScore entry.accessibleName + kExactPenalty) role
                (some entry.accessibleName) true]⟩
          [withoutName, candLax, candExact]

/-- The root element used for the scope's text: the document element when the
scope is the document. -/
def rootTextElem (root : Option EPath) : EPath :=
  match root with
  | none => []
  | some r => r

/-- The early-return guard of `_tryText` on the `omitTextFrom` boundary. -/
def textOmitGuard (options : GenOptions) (targetElement : EPath) : Bool :=
  match options.omitTextFrom with
  | some om => pathIn targetElement om || pathIn om targetElement
  | none => false

/-- Source `_tryText`, as the (at most one) candidate it offers to the
collection: the lax candidate when the lax text is single-match in the scope
and absent from every direct child's text, otherwise the exact candidate when
the full text is at most 80 characters and is matched by exactly the target
in the text table. -/
def tryTextCandidates (ctx : Ctx) (tables : IndexTables) (root : Option EPath)
    (targetElement : EPath) (options : GenOptions) : List SelectorCandidate :=
  if options.omitInternalEngines then []
  else if textOmitGuard options targetElement then []
  else
    let text := getElementText ctx targetElement
    let laxText := takeStr text.lowerCase 80
    if laxText = "" then []
    else
      let rootLower := (getElementText ctx (rootTextElem root)).lowerCase
      let singleMatchLax := ¬ hasTwoOccurences rootLower laxText
        ∧ ¬ (elemChildPaths ctx.dom targetElement).any
              (fun child => strContains (getElementText ctx child).lowerCase laxText)
      if singleMatchLax then
        [⟨[.text (kTextScore + textLengthScore laxText) laxText false]⟩]
      else if text.full.length ≤ 80 then
        let elements := (listMapGet tables.textToElements text.full).filter (fun e => inScope root e)
        if elements = [targetElement] then
          [⟨[.text (kTextScore + textLengthScore laxText + kExactPenalty) text.full true]⟩]
        else []
      else []

/-! ## Structural CSS fallback -/

/-- Source `_generateCSSToken` (memoized in source): narrow the sibling set
with id, classes, then tag name; fall back to `:nth-child`. -/
def generateCSSToken (ctx : Ctx) (parent element : EPath) : String :=
  let siblings := elemChildPaths ctx.dom parent
  let step := fun (st : String × List EPath) (addToken : String) (pre : Bool) =>
    if st.2.length ≤ 1 then st
    else
      let newToken := if pre then addToken ++ st.1 else st.1 ++ addToken
      let newFiltered := siblings.filter (fun e => ctx.caps.matchesCSS e newToken)
      if newFiltered.length < st.2.length then (newToken, newFiltered) else st
  let st : String × List EPath := ("", siblings)
  let st :=
    if attrTruthy (getAttr ctx.dom element "id") then
      step st ("#" ++ cssEscape ((getAttr ctx.dom element "id").getD "")) false
    else st
  let classes := splitWS ((getAttr ctx.dom element "class").getD "")
  let st := classes.foldl (fun st cls => step st ("." ++ cssEscape cls) false) st
  let st := step st (cssEscape (lowerStr (nodeNameAt ctx.dom element))) true
  let token := if st.1 = "" then cssEscape (lowerStr (nodeNameAt ctx.dom element)) else st.1
  if st.2.length > 1 then
    token ++ ":nth-child(" ++ toString (1 + jsIndexOf (elemChildPaths ctx.dom parent) element) ++ ")"
  else token

/-- Termination support: a parent path is one shorter. -/
theorem parentOf_length (e p : EPath) (h : parentOf e = some p) : p.length + 1 = e.length := by
  cases e with
  | nil => simp [parentOf] at h
  | cons a as =>
    simp only [parentOf, Option.some.injEq] at h
    subst h
    simp [List.length_dropLast]

/-- The ancestor walk of `_generateCSSSelector`: one CSS token per hop from
`e` up to (exclusive) the scope root, bottom-up.  The fuel argument is a
structural-recursion bound; the wrapper passes `e.length + 1`, which the walk
(which shortens the path by one per step) can never exhaust. -/
def cssPathTokensFuel (ctx : Ctx) (root : Option EPath) : Nat → EPath → List String
  | 0, _ => []
  | fuel + 1, e =>
    if root = some e then []
    else
      match parentOf e with
      | none => []
      | some parent => generateCSSToken ctx parent e :: cssPathTokensFuel ctx root fuel parent

def cssPathTokens (ctx : Ctx) (root : Option EPath) (e : EPath) : List String :=
  cssPathTokensFuel ctx root (e.length + 1) e

/-- Source `_generateCSSSelector`. -/
def generateCSSSelector (ctx : Ctx) (root : Option EPath) (targetElement : EPath) : String :=
  if root = none ∧ targetElement = [] then "html"
  else joinSep " " (((cssPathTokens ctx root targetElement).reverse).map (fun token => "> " ++ token))

/-- Source `_lazyCSSSelector` (the thunk is pure; stored eagerly). -/
def lazyCSSSelector (ctx : Ctx) (root : Option EPath) (targetElement : EPath) : SelectorCandidate :=
  ⟨[.css kCSSFallbackScore (generateCSSSelector ctx root targetElement)]⟩

/-! ## Orchestration -/

/-- Source `_generateWithoutChaining`: internal engines, role, CSS, then text
when allowed; the lazily-computed structural fallback is added when the
collection has no best. -/
def generateWithoutChaining (ctx : Ctx) (tables : IndexTables) (root : Option EPath)
    (targetElement : EPath) (options : GenOptions) (allowTextEngine : Bool) :
    SelectorCandidateCollection :=
  let cands := tryInternalEnginesCandidates ctx tables root targetElement options
    ++ tryRoleCandidates ctx tables root targetElement options
    ++ tryCSSCandidates ctx tables root targetElement options
    ++ (if allowTextEngine then tryTextCandidates ctx tables root targetElement options else [])
  let collection := cands.foldl SelectorCandidateCollection.updateWithCandidate .empty
  match collection.best? with
  | none => collection.updateWithCandidate (lazyCSSSelector ctx root targetElement)
  | some _ => collection

/-- The ancestor walk `for (parent = …; parent && parent !== root; parent =
parentElementOrShadowHost(parent))` as a list, starting at the given
element-or-none.  Fueled for structural recursion; the wrapper's fuel (path
length plus one) is never exhausted since each step shortens the path. -/
def ancestorsFromFuel (root : Option EPath) : Nat → Option EPath → List EPath
  | 0, _ => []
  | _, none => []
  | fuel + 1, some p =>
    if root = some p then [] else p :: ancestorsFromFuel root fuel (parentOf p)

def ancestorsFrom (root : Option EPath) (o : Option EPath) : List EPath :=
  ancestorsFromFuel root (match o with | none => 0 | some p => p.length + 1) o

/-- Source `_generateParent`: the `..`-hop path from `fromEl` up to `toEl`
(fueled; the wrapper's fuel is never exhausted). -/
def parentHopsFuel : Nat → EPath → EPath → List String
  | 0, _, _ => []
  | fuel + 1, fromEl, toEl =>
    if fromEl = toEl then []
    else
      match parentOf fromEl with
      | none => []
      | some p => ".." :: parentHopsFuel fuel p toEl

def parentHops (fromEl toEl : EPath) : List String :=
  parentHopsFuel (fromEl.length + 1) fromEl toEl

/-- Source `_generateParent` as a collection holding the xpath candidate. -/
def generateParent (fromEl toEl : EPath) : SelectorCandidateCollection :=
  SelectorCandidateCollection.empty.updateWithCandidate
    ⟨[.xpath kXPathParentsScore (joinSep "/" (parentHops fromEl toEl))]⟩

/-- Source `shallowDescendants`: the bounded-depth, bounded-count pre-order
subtree listing (shadow roots are absent from the model). -/
def shallowDescendants (ctx : Ctx) : EPath → Nat → Nat → List EPath → List EPath
  | root, depth, total, result =>
    let result := result ++ [root]
    match depth with
    | 0 => result
    | d + 1 =>
      (elemChildPaths ctx.dom root).foldl
        (fun result child =>
          if result.length < total then shallowDescendants ctx child d total result
          else result)
        result

/-- Source `_generateWithChaining` (memoized per element in source; the memo
caches a pure function of the unmutated DOM, so recomputation is equal).
Fueled for structural recursion: every ancestor strictly shortens the path,
so the wrapper's fuel (path length plus one) is never exhausted and the
fuel-zero branch (which skips the ancestor loop) is unreachable. -/
def generateWithChainingFuel (ctx : Ctx) (tables : IndexTables) (root : Option EPath)
    (options : GenOptions) : Nat → EPath → Bool → SelectorCandidateCollection
  | fuel, targetElement, allowTextEngine =>
    let base := SelectorCandidateCollection.empty.updateWithCollection
      (generateWithoutChaining ctx tables root targetElement options allowTextEngine)
    match fuel with
    | 0 => base
    | f + 1 =>
      (ancestorsFrom root (parentOf targetElement)).foldl
        (fun bestForElement parent =>
          let collection := generateWithChainingFuel ctx tables root options f parent false
          bestForElement.updateWithCollection
            (collection.chain (generateWithoutChaining ctx tables (some parent) targetElement options allowTextEngine)))
        base

def generateWithChaining (ctx : Ctx) (tables : IndexTables) (root : Option EPath)
    (targetElement : EPath) (options : GenOptions) (allowTextEngine : Bool) :
    SelectorCandidateCollection :=
  generateWithChainingFuel ctx tables root options (targetElement.length + 1) targetElement
    allowTextEngine

/-- Source `_generateWithRelatives`: walk the ancestors of the target up to
the scope; at each ancestor explore its shallow descendant subtree, chaining
relatives through the parent-hop connective and the ancestor-to-target last
mile. -/
def generateWithRelatives (ctx : Ctx) (tables : IndexTables) (root : Option EPath)
    (targetElement : EPath) (options : GenOptions) : SelectorCandidateCollection :=
  (ancestorsFrom root (some targetElement)).foldl
    (fun result ancestor =>
      let lastMile :=
        if ancestor ≠ targetElement then
          some (generateWithoutChaining ctx tables (some ancestor) targetElement options true)
        else none
      (shallowDescendants ctx ancestor 4 100 []).foldl
        (fun result relative =>
          let collection := generateWithChaining ctx tables root relative options true
          let collection :=
            if relative ≠ ancestor then collection.chain (generateParent relative ancestor)
            else collection
          let collection :=
            match lastMile with
            | some lm => collection.chain lm
            | none => collection
          result.updateWithCollection collection)
        result)
    SelectorCandidateCollection.empty

/-- Source `_retargetForAction`: walk up until an action-role element. -/
def actionRoles : List String :=
  ["button", "checkbox", "spinbutton", "radio", "slider", "listbox", "combobox",
   "searchbox", "textbox", "link"]

def retargetForActionWalkFuel (ctx : Ctx) : Nat → EPath → Option EPath
  | 0, _ => none
  | fuel + 1, element =>
    if (match ctx.caps.ariaRole element with
        | some r => actionRoles.contains r
        | none => false) then some element
    else
      match parentOf element with
      | none => none
      | some p => retargetForActionWalkFuel ctx fuel p

def retargetForActionWalk (ctx : Ctx) (element : EPath) : Option EPath :=
  retargetForActionWalkFuel ctx (element.length + 1) element

/-- The unconditional option mutation at the head of
`SelectorGenerator.generateSelector` (source lines setting
`options.retargetForText = true` and `options.omitTextFrom =
targetElement`). -/
def effectiveOptions (targetElement : EPath) (options : GenOptions) : GenOptions :=
  { options with retargetForText := true, omitTextFrom := some targetElement }

structure GenResult where
  selector : String
  elements : List EPath
deriving DecidableEq

/-- The body of `SelectorGenerator.generateSelector` after the option
mutation.  Returns `none` where the source would fail its non-null assertion
on `result.best()`.  The `retargetForText` loop compares per-element text
cache entries with `===` (object identity); distinct elements always hold
distinct cache objects, so its guard is translated as `parent =
targetElement`. -/
def generateSelectorEffective (ctx : Ctx) (targetElement0 : EPath) (options : GenOptions) :
    Option GenResult :=
  let targetElement :=
    if options.retargetForAction then (retargetForActionWalk ctx targetElement0).getD targetElement0
    else targetElement0
  if options.root = some targetElement then some ⟨":scope", [targetElement]⟩
  else
    let root := options.root
    let tables := preprocessTree ctx root targetElement options
    let result := SelectorCandidateCollection.empty.updateWithCollection
      (generateWithRelatives ctx tables root targetElement options)
    let result :=
      if options.retargetForText then
        (ancestorsFrom root (parentOf targetElement)).foldl
          (fun result parent =>
            if parent = targetElement then
              result.updateWithCollection (generateWithRelatives ctx tables root parent options)
            else result)
          result
      else result
    match result.best? with
    | none => none
    | some c => some ⟨c.selector, ctx.caps.finalQuery c.selector root⟩

/-- Source `SelectorGenerator.generateSelector`. -/
def SelectorGenerator.generateSelector (ctx : Ctx) (targetElement : EPath)
    (options : GenOptions) : Option GenResult :=
  generateSelectorEffective ctx targetElement (effectiveOptions targetElement options)

/-- `generateSelector` together with the caller-visible mutation of the
options object (the source mutates the caller's record in place; the second
component is the options object as the caller observes it afterwards). -/
def generateSelectorMut (ctx : Ctx) (targetElement : EPath) (options : GenOptions) :
    Option GenResult × GenOptions :=
  (SelectorGenerator.generateSelector ctx targetElement options,
   effectiveOptions targetElement options)

/-! ## Role selector engine (`roleSelectorEngine.ts`) -/

/-- The value carried by a parsed attribute matcher
(`parseComponentSelector` output; parsing itself is external to the sources
under review, so parsed selectors are the inputs here). -/
inductive AttrVal where
  | str (s : String)
  | num (n : Int)
  | bool (b : Bool)
  | regex (r : String)
deriving DecidableEq

def AttrVal.isNum : AttrVal → Bool
  | .num _ => true
  | _ => false

def AttrVal.isBool : AttrVal → Bool
  | .bool _ => true
  | _ => false

/-- JS truthiness of an attribute value. -/
def AttrVal.truthy : AttrVal → Bool
  | .bool b => b
  | .num n => n ≠ 0
  | .str s => s ≠ ""
  | .regex _ => true

/-- One `[name=value]` / `[name]` attribute matcher as parsed. -/
structure ParsedAttr where
  jsonPath : List String
  op : String
  value : AttrVal
deriving DecidableEq

/-- A parsed role selector: role name plus attribute matchers. -/
structure ParsedComponentSelector where
  name : String
  attributes : List ParsedAttr
deriving DecidableEq

/-- Source `getAriaBoolean` (roleUtils.ts): `null` is `undefined`, otherwise
the comparison of the lower-cased attribute with `'true'`. -/
def getAriaBoolean (attr : Option String) : Option Bool :=
  match attr with
  | none => none
  | some a => some (lowerStr a = "true")

/-- A JS value produced by the role attribute getters. -/
inductive ActualVal where
  | undefinedVal
  | b (x : Bool)
  | n (x : Int)
  | nan
deriving DecidableEq

def optBoolVal : Option Bool → ActualVal
  | none => .undefinedVal
  | some x => .b x

/-- JS `Number(string)` restricted to the integer literals that occur as
`aria-level` values; a non-numeric string is `NaN` and the empty string is
`0`. -/
def jsNumber (s : String) : ActualVal :=
  let t := (trimStr s).data
  if t = [] then .n 0
  else if t.all Char.isDigit then
    .n (t.foldl (fun acc c => acc * 10 + ((c.toNat : Int) - 48)) 0)
  else if t.headD ' ' = '-' ∧ t.tail ≠ [] ∧ t.tail.all Char.isDigit then
    .n (-(t.tail.foldl (fun acc c => acc * 10 + ((c.toNat : Int) - 48)) 0))
  else .nan

/-- The DOM-capability providers consumed by the role engine (role, hidden
computation, accessible name — roleUtils machinery — plus the element
properties `selected`/`checked`/`indeterminate` and the `'*'` query). -/
structure RoleCaps where
  ariaRole : EPath → Option String
  hiddenForRole : EPath → Bool
  accNameOf : EPath → Bool → String
  selectedProp : EPath → Bool
  indeterminateProp : EPath → Option Bool
  checkedProp : EPath → Option Bool
  allElements : List EPath

/-- Source `kAttributeGetters`. -/
def roleAttrActual (d : DomNode) (rc : RoleCaps) (name : String) (e : EPath) : ActualVal :=
  if name = "selected" then
    if nodeNameAt d e = "OPTION" then .b (rc.selectedProp e)
    else optBoolVal (getAriaBoolean (getAttr d e "aria-selected"))
  else if name = "checked" then
    match rc.indeterminateProp e with
    | some true => .undefinedVal
    | _ =>
      match rc.checkedProp e with
      | some b => .b b
      | none => optBoolVal (getAriaBoolean (getAttr d e "aria-checked"))
  else if name = "pressed" then optBoolVal (getAriaBoolean (getAttr d e "aria-pressed"))
  else if name = "expanded" then optBoolVal (getAriaBoolean (getAttr d e "aria-expanded"))
  else if name = "level" then
    match getAttr d e "aria-level" with
    | some v => jsNumber v
    | none =>
      if nodeNameAt d e = "H1" then .n 1
      else if nodeNameAt d e = "H2" then .n 2
      else if nodeNameAt d e = "H3" then .n 3
      else if nodeNameAt d e = "H4" then .n 4
      else if nodeNameAt d e = "H5" then .n 5
      else if nodeNameAt d e = "H6" then .n 6
      else .undefinedVal
  else .undefinedVal

/-- JS strict equality of a matcher value against a getter result. -/
def attrValEqActual : AttrVal → ActualVal → Bool
  | .bool x, .b y => x = y
  | .num x, .n y => x = y
  | _, _ => false

def knownRoleAttrs : List String :=
  ["selected", "checked", "pressed", "expanded", "level", "name", "hidden"]

/-- The attribute-matcher validation of `RoleEngine.queryAll` (source lines
mapping `parsed.attributes`): unknown or nested names, a non-number `level`,
a non-boolean other attribute, and unsupported operators all throw. -/
def validateRoleAttr (a : ParsedAttr) : Except String (String × AttrVal) :=
  if a.jsonPath.length > 1 ∨ ¬ knownRoleAttrs.contains (lowerStr (a.jsonPath.headD "")) then
    .error ("Unknown attribute " ++ joinSep "." a.jsonPath)
  else if lowerStr (a.jsonPath.headD "") = "level" ∧ ¬ a.value.isNum then
    .error "level must be a number"
  else if lowerStr (a.jsonPath.headD "") ≠ "level" ∧ ¬ a.value.isBool then
    .error (lowerStr (a.jsonPath.headD "") ++ " must be a boolean")
  else if a.op ≠ "<truthy>" ∧ a.op ≠ "=" then
    .error ("Unsupported attribute matcher " ++ a.op)
  else .ok (lowerStr (a.jsonPath.headD ""), a.value)

/-- The per-attribute loop of the source `match` closure: `hidden` sets the
hidden flag, `name` stores the expected accessible name, any other attribute
compares against its getter and rejects on mismatch. -/
def roleMatchLoop (d : DomNode) (rc : RoleCaps) (e : EPath) :
    List (String × AttrVal) → Bool → Option AttrVal → Option (Bool × Option AttrVal)
  | [], includeHidden, accName => some (includeHidden, accName)
  | (nm, v) :: rest, includeHidden, accName =>
    if nm = "hidden" then roleMatchLoop d rc e rest v.truthy accName
    else if nm = "name" then roleMatchLoop d rc e rest includeHidden (some v)
    else if attrValEqActual v (roleAttrActual d rc nm e) then
      roleMatchLoop d rc e rest includeHidden accName
    else none

/-- The source `match` closure. -/
def roleMatchElement (d : DomNode) (rc : RoleCaps) (role : String)
    (attrs : List (String × AttrVal)) (e : EPath) : Bool :=
  if rc.ariaRole e ≠ some role then false
  else
    match roleMatchLoop d rc e attrs false none with
    | none => false
    | some (includeHidden, accName) =>
      if ¬ includeHidden ∧ rc.hiddenForRole e then false
      else
        match accName with
        | none => true
        | some v => v = .str (rc.accNameOf e includeHidden)

/-- The eager validation of all attribute matchers (JS `Array.prototype.map`
throws at the first offending entry). -/
def validateRoleAttrs : List ParsedAttr → Except String (List (String × AttrVal))
  | [] => .ok []
  | a :: rest =>
    match validateRoleAttr a with
    | .error m => .error m
    | .ok v =>
      match validateRoleAttrs rest with
      | .error m => .error m
      | .ok vs => .ok (v :: vs)

/-- Source `RoleEngine.queryAll` over a parsed selector: validation happens
eagerly over all attribute matchers before any matching; a validation failure
is the thrown error. -/
def RoleEngine.queryAll (d : DomNode) (rc : RoleCaps) (parsed : ParsedComponentSelector) :
    Except String (List EPath) :=
  let role := lowerStr parsed.name
  match validateRoleAttrs parsed.attributes with
  | .error msg => .error msg
  | .ok attrs => .ok (rc.allElements.filter (roleMatchElement d rc role attrs))

/-- The malformedness condition of one attribute matcher, as the claim lists
it. -/
def roleAttrMalformed (a : ParsedAttr) : Prop :=
  a.jsonPath.length > 1
  ∨ lowerStr (a.jsonPath.headD "") ∉ knownRoleAttrs
  ∨ (lowerStr (a.jsonPath.headD "") = "level" ∧ ¬ a.value.isNum)
  ∨ (lowerStr (a.jsonPath.headD "") ≠ "level" ∧ ¬ a.value.isBool)
  ∨ (a.op ≠ "<truthy>" ∧ a.op ≠ "=")

instance (a : ParsedAttr) : Decidable (roleAttrMalformed a) := by
  unfold roleAttrMalformed; infer_instance

/-! ## Candidate collection call sequences (for the collection invariant) -/

/-- One call on a `SelectorCandidateCollection`. -/
inductive CollectionEvent where
  | cand (c : SelectorCandidate)
  | coll (other : SelectorCandidateCollection)

def applyEvent (col : SelectorCandidateCollection) : CollectionEvent →
    SelectorCandidateCollection
  | .cand c => col.updateWithCandidate c
  | .coll other => col.updateWithCollection other

/-- The result of a sequence of `updateWithCandidate` / `updateWithCollection`
calls on a fresh collection. -/
def applyEvents (events : List CollectionEvent) : SelectorCandidateCollection :=
  events.foldl applyEvent SelectorCandidateCollection.empty

/-- The candidates offered by one call (`updateWithCollection` offers the
other collection's best, when present). -/
def offeredBy : CollectionEvent → List SelectorCandidate
  | .cand c => [c]
  | .coll other =>
    match other.best? with
    | some b => [b]
    | none => []

/-! ## Concrete evaluation contexts -/

/-- `<div><button data-testid="submit">Go</button><span>Hi</span></div>`. -/
def exDom1 : DomNode :=
  .elem "DIV" []
    [.elem "BUTTON" [("data-testid", "submit")] [.text "Go"],
     .elem "SPAN" [] [.text "Hi"]]

/-- Capabilities for `exDom1`: the button has role `button` with accessible
name `Go` derived from its own contents; texts are the obvious ones. -/
def exCaps1 : Caps where
  ariaRole := fun p => if p = [0] then some "button" else none
  hiddenForAria := fun _ => false
  accName := fun p => if p = [0] then ⟨"Go", some [[0]]⟩ else ⟨"", none⟩
  rawText := fun p =>
    if p = [] then "Go Hi" else if p = [0] then "Go" else if p = [1] then "Hi" else ""
  labelsOf := fun _ => []
  matchesCSS := fun _ _ => false
  queryCSS := fun r s => if r = some [] ∧ s = "*" then [[0], [1]] else []
  finalQuery := fun _ _ => [[0]]

def exCtx1 : Ctx := ⟨exDom1, exCaps1⟩

def exOptions1 : GenOptions :=
  ⟨"data-testid", false, false, false, none, some []⟩

/-- `<div><button data-testid="submit" title="b">Go</button>
<span title="a">Hi</span></div>`. -/
def exDom2 : DomNode :=
  .elem "DIV" []
    [.elem "BUTTON" [("data-testid", "submit"), ("title", "b")] [.text "Go"],
     .elem "SPAN" [("title", "a")] [.text "Hi"]]

def exCaps2 : Caps where
  ariaRole := fun _ => none
  hiddenForAria := fun _ => false
  accName := fun _ => ⟨"", none⟩
  rawText := fun _ => ""
  labelsOf := fun _ => []
  matchesCSS := fun _ _ => false
  queryCSS := fun r s => if r = some [] ∧ s = "*" then [[0], [1]] else []
  finalQuery := fun _ _ => []

def exCtx2 : Ctx := ⟨exDom2, exCaps2⟩

def exOptions2 : GenOptions :=
  ⟨"data-testid", false, false, false, none, some []⟩

def exTables2 : IndexTables := preprocessTree exCtx2 (some []) [0] exOptions2

/-- `<div><img alt="Logo"></div>`. -/
def exDom7 : DomNode :=
  .elem "DIV" [] [.elem "IMG" [("alt", "Logo")] []]

def exCaps7 : Caps where
  ariaRole := fun _ => none
  hiddenForAria := fun _ => false
  accName := fun _ => ⟨"", none⟩
  rawText := fun _ => ""
  labelsOf := fun _ => []
  matchesCSS := fun _ _ => false
  queryCSS := fun r s => if r = some [] ∧ s = "*" then [[0]] else []
  finalQuery := fun _ _ => []

def exCtx7 : Ctx := ⟨exDom7, exCaps7⟩

def exOptions7 : GenOptions :=
  ⟨"data-testid", false, false, false, none, some []⟩

def exTables7 : IndexTables := preprocessTree exCtx7 (some []) [0] exOptions7

/-- The lax text of `_tryText`: lower-cased normalized text truncated to 80
characters. -/
def laxTextOf (ctx : Ctx) (targetElement : EPath) : String :=
  takeStr (getElementText ctx targetElement).lowerCase 80

/-- The lax text candidate of `_tryText`. -/
def laxTextCandidate (ctx : Ctx) (targetElement : EPath) : SelectorCandidate :=
  ⟨[.text (kTextScore + textLengthScore (laxTextOf ctx targetElement))
      (laxTextOf ctx targetElement) false]⟩

/-- The exact text candidate of `_tryText`. -/
def exactTextCandidate (ctx : Ctx) (targetElement : EPath) : SelectorCandidate :=
  ⟨[.text (kTextScore + textLengthScore (laxTextOf ctx targetElement) + kExactPenalty)
      (getElementText ctx targetElement).full true]⟩

/-- A token is printable when its payload cannot stringify to the empty
string: only a `css` token can, when its CSS text is empty. -/
def tokenOK : SelectorToken → Prop
  | .css _ s => s ≠ ""
  | _ => True

/-- A candidate is well-formed when it has at least one token and every token
is printable. -/
def candOK (c : SelectorCandidate) : Prop :=
  c.tokens ≠ [] ∧ ∀ t ∈ c.tokens, tokenOK t

/-- A collection is well-formed when its best candidate (if any) is. -/
def collOK (col : SelectorCandidateCollection) : Prop :=
  ∀ c, col.best? = some c → candOK c

/-- The scope relationship assumed by generation: the scope root (when an
element) strictly contains the target. -/
def scopeOK (root : Option EPath) (e : EPath) : Prop :=
  ∀ r, root = some r → (pathIn r e = true ∧ r ≠ e)

/-- The condition under which the structural CSS fallback string is
non-empty. -/
def fallbackOK (root : Option EPath) (e : EPath) : Prop :=
  root ≠ some e ∧ (e = [] → root = none)

/-! ## Theorems for the claims -/

/-- C8: `appendNth` appends exactly one positional-index token; its score is
`min(kNthScoreMax, kNthScoreMin * (1 + ⌊index / 4⌋))` — buckets of size 4:
`kNthScoreMin` for indices 0..3, the `kNthScoreMax` cap for every index ≥ 4 —
and the score is monotonically non-decreasing in the index. -/
theorem claim8_appendNth_bucketed_score (c : SelectorCandidate) (index total : Nat) :
    (c.appendNth (index : Int) total).tokens
        = c.tokens ++ [SelectorToken.nth (nthTokenScore (index : Int)) (index : Int)]
      ∧ nthTokenScore (index : Int) = min kNthScoreMax (kNthScoreMin * (1 + index / 4))
      ∧ (index ≤ 3 → nthTokenScore (index : Int) = kNthScoreMin)
      ∧ (4 ≤ index → nthTokenScore (index : Int) = kNthScoreMax)
      ∧ (∀ i j : Nat, i ≤ j → nthTokenScore (i : Int) ≤ nthTokenScore (j : Int)) := by
  have hbase : ∀ m : Nat, nthTokenScore (m : Int) = min kNthScoreMax (kNthScoreMin * (1 + m / 4)) := by
    intro m
    unfold nthTokenScore
    have h4 : ((m : Int) + 4).toNat = m + 4 := by omega
    rw [h4, Nat.add_div_right _ (by norm_num), Nat.add_comm]
  refine ⟨rfl, hbase index, ?_, ?_, ?_⟩
  · intro h
    rw [hbase]
    have : index / 4 = 0 := Nat.div_eq_of_lt (by omega)
    rw [this]
    decide
  · intro h
    rw [hbase]
    have h1 : 1 ≤ index / 4 := (Nat.one_le_div_iff (by norm_num)).2 h
    have h2 : kNthScoreMax ≤ kNthScoreMin * (1 + index / 4) := by
      have : kNthScoreMin * 2 ≤ kNthScoreMin * (1 + index / 4) :=
        Nat.mul_le_mul_left _ (by omega)
      simpa [kNthScoreMin, kNthScoreMax] using this
    omega
  · intro i j hij
    rw [hbase, hbase]
    exact min_le_min le_rfl
      (Nat.mul_le_mul_left _ (by have := Nat.div_le_div_right (c := 4) hij; omega))

/-- C8 witness: the bucket boundaries at concrete indices. -/
theorem claim8_appendNth_bucketed_score_witness :
    nthTokenScore (3 : Nat) = kNthScoreMin ∧ nthTokenScore (4 : Nat) = kNthScoreMax :=
  ⟨(claim8_appendNth_bucketed_score ⟨[]⟩ 3 10).2.2.1 (by decide),
   (claim8_appendNth_bucketed_score ⟨[]⟩ 4 10).2.2.2.1 (by decide)⟩

theorem updateWithCandidate_isSome_le (col : SelectorCandidateCollection)
    (c : SelectorCandidate) :
    ∃ b, (col.updateWithCandidate c).best? = some b ∧ b.score ≤ c.score := by
  unfold SelectorCandidateCollection.updateWithCandidate
  cases hcol : col.best? with
  | none => exact ⟨c, rfl, le_rfl⟩
  | some b0 =>
    by_cases h : c.score < b0.score
    · exact ⟨c, by simp [h], le_rfl⟩
    · exact ⟨b0, by simp [h, hcol], by omega⟩

theorem updateWithCandidate_mono (col : SelectorCandidateCollection)
    (c : SelectorCandidate) (b0 : SelectorCandidate) (h : col.best? = some b0) :
    ∃ b, (col.updateWithCandidate c).best? = some b ∧ b.score ≤ b0.score := by
  unfold SelectorCandidateCollection.updateWithCandidate
  rw [h]
  by_cases hlt : c.score < b0.score
  · exact ⟨c, by simp [hlt], by omega⟩
  · exact ⟨b0, by simp [hlt, h], le_rfl⟩

theorem applyEvent_mono (col : SelectorCandidateCollection) (e : CollectionEvent)
    (b0 : SelectorCandidate) (h : col.best? = some b0) :
    ∃ b, (applyEvent col e).best? = some b ∧ b.score ≤ b0.score := by
  cases e with
  | cand c => exact updateWithCandidate_mono col c b0 h
  | coll other =>
    cases hother : other.best? with
    | none =>
      refine ⟨b0, ?_, le_rfl⟩
      simp [applyEvent, SelectorCandidateCollection.updateWithCollection, hother, h]
    | some b1 =>
      have := updateWithCandidate_mono col b1 b0 h
      simpa [applyEvent, SelectorCandidateCollection.updateWithCollection, hother] using this

theorem applyEvent_le (col : SelectorCandidateCollection) (e : CollectionEvent)
    (c : SelectorCandidate) (hc : c ∈ offeredBy e) :
    ∃ b, (applyEvent col e).best? = some b ∧ b.score ≤ c.score := by
  cases e with
  | cand c' =>
    simp [offeredBy] at hc
    subst hc
    exact updateWithCandidate_isSome_le col c
  | coll other =>
    cases hother : other.best? with
    | none => simp [offeredBy, hother] at hc
    | some b1 =>
      simp [offeredBy, hother] at hc
      subst hc
      have := updateWithCandidate_isSome_le col c
      simpa [applyEvent, SelectorCandidateCollection.updateWithCollection, hother] using this

theorem foldl_applyEvent_mono (events : List CollectionEvent) :
    ∀ (col : SelectorCandidateCollection) (b0 : SelectorCandidate), col.best? = some b0 →
      ∃ b, (events.foldl applyEvent col).best? = some b ∧ b.score ≤ b0.score := by
  induction events with
  | nil => exact fun col b0 h => ⟨b0, h, le_rfl⟩
  | cons e rest ih =>
    intro col b0 h
    obtain ⟨b1, h1, hle1⟩ := applyEvent_mono col e b0 h
    obtain ⟨b2, h2, hle2⟩ := ih _ b1 h1
    exact ⟨b2, h2, le_trans hle2 hle1⟩

theorem foldl_applyEvent_le (events : List CollectionEvent) :
    ∀ (col : SelectorCandidateCollection) (b c : SelectorCandidate),
      c ∈ events.flatMap offeredBy →
      (events.foldl applyEvent col).best? = some b → b.score ≤ c.score := by
  induction events with
  | nil => simp
  | cons e rest ih =>
    intro col b c hc hb
    have hc' : c ∈ offeredBy e ∨ c ∈ rest.flatMap offeredBy := by
      rcases List.mem_flatMap.1 hc with ⟨ev, hev, hcev⟩
      rcases List.mem_cons.1 hev with h | h
      · subst h
        exact Or.inl hcev
      · exact Or.inr (List.mem_flatMap.2 ⟨ev, h, hcev⟩)
    rcases hc' with h | h
    · obtain ⟨b1, h1, hle1⟩ := applyEvent_le col e c h
      obtain ⟨b2, h2, hle2⟩ := foldl_applyEvent_mono rest _ b1 h1
      have hbb : b = b2 := by
        have := hb.symm.trans h2
        exact Option.some.inj this
      subst hbb
      omega
    · exact ih (applyEvent col e) b c h hb

/-- C6: after any sequence of `updateWithCandidate` and
`updateWithCollection` calls on a fresh collection, the held best scores no
higher than every candidate ever offered; and `updateWithCandidate` replaces
the held best only on a strictly lower score, so the first-offered candidate
wins ties. -/
theorem claim6_collection_invariant :
    (∀ (events : List CollectionEvent) (b c : SelectorCandidate),
        (applyEvents events).best? = some b → c ∈ events.flatMap offeredBy →
          b.score ≤ c.score)
    ∧ (∀ (col : SelectorCandidateCollection) (b c : SelectorCandidate),
        col.best? = some b → b.score ≤ c.score → col.updateWithCandidate c = col) := by
  constructor
  · intro events b c hb hc
    exact foldl_applyEvent_le events SelectorCandidateCollection.empty b c hc hb
  · intro col b c h hle
    unfold SelectorCandidateCollection.updateWithCandidate
    rw [h]
    simp [Nat.not_lt.2 hle]

/-- C6 witness: two candidates with equal scores — the first stays. -/
theorem claim6_collection_invariant_witness :
    (applyEvents [CollectionEvent.cand ⟨[.css 5 "a"]⟩,
        CollectionEvent.cand ⟨[.css 5 "b"]⟩]).best? = some ⟨[.css 5 "a"]⟩
    ∧ SelectorCandidateCollection.updateWithCandidate ⟨some ⟨[.css 5 "a"]⟩⟩ ⟨[.css 5 "b"]⟩
        = ⟨some ⟨[.css 5 "a"]⟩⟩ := by
  refine ⟨by decide, ?_⟩
  exact claim6_collection_invariant.2 ⟨some ⟨[.css 5 "a"]⟩⟩ ⟨[.css 5 "a"]⟩ ⟨[.css 5 "b"]⟩
    rfl (by decide)

theorem validateRoleAttr_error_iff (a : ParsedAttr) :
    (∃ m, validateRoleAttr a = .error m) ↔ roleAttrMalformed a := by
  have hmem : (knownRoleAttrs.contains (lowerStr (a.jsonPath.headD "")) = true)
      ↔ lowerStr (a.jsonPath.headD "") ∈ knownRoleAttrs := List.elem_iff
  unfold validateRoleAttr roleAttrMalformed
  split_ifs with h1 h2 h3 h4
  · rw [hmem] at h1
    exact ⟨fun _ => by tauto, fun _ => ⟨_, rfl⟩⟩
  · exact ⟨fun _ => by tauto, fun _ => ⟨_, rfl⟩⟩
  · exact ⟨fun _ => by tauto, fun _ => ⟨_, rfl⟩⟩
  · exact ⟨fun _ => by tauto, fun _ => ⟨_, rfl⟩⟩
  · rw [hmem] at h1
    constructor
    · rintro ⟨m, hm⟩
      cases hm
    · intro hmal
      exfalso
      tauto

theorem validateRoleAttrs_error_iff (l : List ParsedAttr) :
    (∃ m, validateRoleAttrs l = .error m) ↔ ∃ a ∈ l, roleAttrMalformed a := by
  induction l with
  | nil => simp [validateRoleAttrs]
  | cons a rest ih =>
    cases hv : validateRoleAttr a with
    | error m =>
      simp only [validateRoleAttrs, hv]
      constructor
      · intro _
        exact ⟨a, by simp, (validateRoleAttr_error_iff a).1 ⟨m, hv⟩⟩
      · intro _
        exact ⟨m, rfl⟩
    | ok v =>
      have hnot : ¬ roleAttrMalformed a := by
        intro hmal
        obtain ⟨m, hm⟩ := (validateRoleAttr_error_iff a).2 hmal
        rw [hv] at hm
        cases hm
      simp only [validateRoleAttrs, hv]
      cases hrest : validateRoleAttrs rest with
      | error m =>
        simp only []
        constructor
        · intro _
          obtain ⟨a', ha', hmal⟩ := ih.1 ⟨m, hrest⟩
          exact ⟨a', by simp [ha'], hmal⟩
        · intro _
          exact ⟨m, rfl⟩
      | ok vs =>
        simp only []
        constructor
        · rintro ⟨m, hm⟩
          cases hm
        · rintro ⟨a', ha', hmal⟩
          rcases List.mem_cons.1 ha' with h | h
          · subst h; exact absurd hmal hnot
          · obtain ⟨m, hm⟩ := ih.2 ⟨a', h, hmal⟩
            rw [hm] at hrest
            cases hrest

/-- C9: `RoleEngine.queryAll` fails with a descriptive error exactly when
some attribute matcher is malformed — a nested json path or a name outside
selected/checked/pressed/expanded/level/name/hidden, a non-number value for
`level`, a non-boolean value for any other known attribute, or an operator
other than `=` or truthy — and succeeds (never throws) on every
well-formed parsed selector. -/
theorem claim9_roleEngine_queryAll_error_iff (d : DomNode) (rc : RoleCaps)
    (parsed : ParsedComponentSelector) :
    (∃ msg, RoleEngine.queryAll d rc parsed = .error msg)
      ↔ ∃ a ∈ parsed.attributes, roleAttrMalformed a := by
  unfold RoleEngine.queryAll
  cases hval : validateRoleAttrs parsed.attributes with
  | error m =>
    simp only [hval]
    constructor
    · intro _
      exact (validateRoleAttrs_error_iff parsed.attributes).1 ⟨m, hval⟩
    · intro _
      exact ⟨m, rfl⟩
  | ok attrs =>
    simp only [hval]
    constructor
    · rintro ⟨m, hm⟩
      cases hm
    · intro hmal
      obtain ⟨m, hm⟩ := (validateRoleAttrs_error_iff parsed.attributes).2 hmal
      rw [hm] at hval
      cases hval

/-- C10: `generateSelector` overrides `options.retargetForText` (to `true`)
and `options.omitTextFrom` (to the target) before generating, so
caller-supplied values of those two fields never influence the result, and
the caller's options object is mutated. -/
theorem claim10_options_mutated (ctx : Ctx) (t : EPath) (o1 o2 : GenOptions)
    (h1 : o1.testIdAttributeName = o2.testIdAttributeName)
    (h2 : o1.retargetForAction = o2.retargetForAction)
    (h3 : o1.omitInternalEngines = o2.omitInternalEngines)
    (h4 : o1.root = o2.root) :
    (generateSelectorMut ctx t o1).1 = (generateSelectorMut ctx t o2).1
    ∧ (generateSelectorMut ctx t o1).2.retargetForText = true
    ∧ (generateSelectorMut ctx t o1).2.omitTextFrom = some t := by
  have heff : effectiveOptions t o1 = effectiveOptions t o2 := by
    cases o1
    cases o2
    simp_all [effectiveOptions]
  exact ⟨by simp [generateSelectorMut, SelectorGenerator.generateSelector, heff], rfl, rfl⟩

/-- C10 witness: caller values `retargetForText := false, omitTextFrom :=
none` versus `true, some [7]` — identical results, and the returned options
carry the overridden fields. -/
theorem claim10_options_mutated_witness :
    (generateSelectorMut exCtx1 [0] exOptions1).1
        = (generateSelectorMut exCtx1 [0] ⟨"data-testid", false, true, false, some [7], some []⟩).1
    ∧ (generateSelectorMut exCtx1 [0] exOptions1).2.retargetForText = true
    ∧ (generateSelectorMut exCtx1 [0] exOptions1).2.omitTextFrom = some [0] :=
  claim10_options_mutated exCtx1 [0] exOptions1
    ⟨"data-testid", false, true, false, some [7], some []⟩ rfl rfl rfl rfl

/-- C5: generation is deterministic on an unmutated DOM: a repeat call — even
through the options object as mutated by the first call — returns the same
result, and calls with identical inputs agree (the per-call caches are
recreated inside each call, and the only module-level mutable state, the
diagnostic counters object, is reset at the head of each call and never
read). -/
theorem claim5_generateSelector_deterministic (ctx : Ctx) (t : EPath) (o : GenOptions) :
    (generateSelectorMut ctx t ((generateSelectorMut ctx t o).2)).1
        = (generateSelectorMut ctx t o).1
    ∧ SelectorGenerator.generateSelector ctx t o = SelectorGenerator.generateSelector ctx t o := by
  refine ⟨?_, rfl⟩
  have hidem : effectiveOptions t (effectiveOptions t o) = effectiveOptions t o := by
    cases o
    rfl
  simp [generateSelectorMut, SelectorGenerator.generateSelector, hidem]

theorem find_imp_ne_nil (l sub : List Char) (start i : Nat) (hsub : sub ≠ [])
    (h : strIndexOfFromList l sub start = some i) : l ≠ [] := by
  intro hl
  have hpred := List.find?_some h
  simp only [Bool.and_eq_true, decide_eq_true_eq] at hpred
  have hsubAt := hpred.2
  unfold subAt at hsubAt
  rw [hl] at hsubAt
  simp at hsubAt
  exact hsub hsubAt

theorem occCountFuel_eq_zero (l p : List Char) (start fuel : Nat)
    (h : strIndexOfFromList l p start = none) : occCountFuel l p start fuel = 0 := by
  cases fuel <;> simp [occCountFuel, h]

/-- Bridge: for a non-empty pattern, the source's `!hasTwoOccurences`
together with at least one occurrence says exactly "occurs exactly once". -/
theorem occCount_eq_one_iff (s sub : String) (hsub : sub ≠ "") :
    occCount s sub = 1
      ↔ (strContains s sub = true ∧ hasTwoOccurences s sub = false) := by
  have hsubd : sub.data ≠ [] := by
    intro h
    apply hsub
    cases sub
    simp_all
  unfold occCount strContains hasTwoOccurences strIndexOfFrom
  simp only [String.length]
  cases h0 : strIndexOfFromList s.data sub.data 0 with
  | none => simp [occCountFuel, h0]
  | some i =>
    have hlne : s.data ≠ [] := find_imp_ne_nil _ _ _ _ hsubd h0
    have hstep : occCountFuel s.data sub.data 0 (s.data.length + 1)
        = 1 + occCountFuel s.data sub.data (i + sub.data.length) s.data.length := by
      simp only [occCountFuel, h0]
    rw [hstep]
    simp only [Option.isSome_some, true_and]
    cases h1 : strIndexOfFromList s.data sub.data (i + sub.data.length) with
    | none =>
      rw [occCountFuel_eq_zero _ _ _ _ h1]
      simp
    | some j =>
      obtain ⟨k, hk⟩ : ∃ k, s.data.length = k + 1 := by
        cases hs : s.data with
        | nil => exact absurd hs hlne
        | cons c cs => exact ⟨cs.length, by simp [hs]⟩
      rw [hk]
      have hstep2 : occCountFuel s.data sub.data (i + sub.data.length) (k + 1)
          = 1 + occCountFuel s.data sub.data (j + sub.data.length) k := by
        simp only [occCountFuel, h1]
      rw [hstep2]
      simp

theorem laxText_ne_exactText (ctx : Ctx) (t : EPath) :
    laxTextCandidate ctx t ≠ exactTextCandidate ctx t := by
  intro h
  have := congrArg (fun c => SelectorCandidate.score c) h
  simp [laxTextCandidate, exactTextCandidate, SelectorCandidate.score,
    SelectorToken.score, kExactPenalty] at this

/-- C4: `_tryText` emits the lax (case-insensitive substring) candidate iff
the lax text occurs exactly once in the scope's text and in no direct child's
text; when the lax candidate is emitted nothing else is (in particular no
exact candidate); when lax is not unique and the full text is at most 80
characters, the exact candidate — scored `kExactPenalty` worse than lax — is
tried instead (emitted exactly when the text table holds the target alone for
that text). -/
theorem claim4_tryText_lax_iff (ctx : Ctx) (tables : IndexTables) (root : Option EPath)
    (targetElement : EPath) (options : GenOptions)
    (h1 : options.omitInternalEngines = false)
    (h2 : textOmitGuard options targetElement = false)
    (h3 : laxTextOf ctx targetElement ≠ "")
    (h4 : strContains (getElementText ctx (rootTextElem root)).lowerCase
            (laxTextOf ctx targetElement) = true) :
    (tryTextCandidates ctx tables root targetElement options = [laxTextCandidate ctx targetElement]
      ↔ (occCount (getElementText ctx (rootTextElem root)).lowerCase (laxTextOf ctx targetElement) = 1
          ∧ ∀ child ∈ elemChildPaths ctx.dom targetElement,
              strContains (getElementText ctx child).lowerCase (laxTextOf ctx targetElement) = false))
    ∧ (laxTextCandidate ctx targetElement ∈ tryTextCandidates ctx tables root targetElement options →
        exactTextCandidate ctx targetElement ∉ tryTextCandidates ctx tables root targetElement options)
    ∧ (¬ (occCount (getElementText ctx (rootTextElem root)).lowerCase (laxTextOf ctx targetElement) = 1
          ∧ ∀ child ∈ elemChildPaths ctx.dom targetElement,
              strContains (getElementText ctx child).lowerCase (laxTextOf ctx targetElement) = false) →
        (getElementText ctx targetElement).full.length ≤ 80 →
        tryTextCandidates ctx tables root targetElement options
            = (if (listMapGet tables.textToElements (getElementText ctx targetElement).full).filter
                    (fun e => inScope root e) = [targetElement]
               then [exactTextCandidate ctx targetElement] else [])
          ∧ (exactTextCandidate ctx targetElement).score
              = (laxTextCandidate ctx targetElement).score + kExactPenalty) := by
  have hOcc := occCount_eq_one_iff (getElementText ctx (rootTextElem root)).lowerCase
    (laxTextOf ctx targetElement) h3
  have hSingleIff :
      ((¬ hasTwoOccurences (getElementText ctx (rootTextElem root)).lowerCase
          (laxTextOf ctx targetElement) = true)
        ∧ ¬ (elemChildPaths ctx.dom targetElement).any
            (fun child => strContains (getElementText ctx child).lowerCase
              (laxTextOf ctx targetElement)) = true)
      ↔ (occCount (getElementText ctx (rootTextElem root)).lowerCase (laxTextOf ctx targetElement) = 1
          ∧ ∀ child ∈ elemChildPaths ctx.dom targetElement,
              strContains (getElementText ctx child).lowerCase (laxTextOf ctx targetElement) = false) := by
    constructor
    · rintro ⟨ha, hb⟩
      refine ⟨hOcc.2 ⟨h4, by simpa using ha⟩, ?_⟩
      intro child hchild
      by_contra hc
      exact hb (List.any_eq_true.2 ⟨child, hchild, by simpa using hc⟩)
    · rintro ⟨ha, hb⟩
      refine ⟨by simp [(hOcc.1 ha).2], ?_⟩
      intro hany
      obtain ⟨child, hchild, hc⟩ := List.any_eq_true.1 hany
      rw [hb child hchild] at hc
      cases hc
  have hdef : tryTextCandidates ctx tables root targetElement options
      = (if ((¬ hasTwoOccurences (getElementText ctx (rootTextElem root)).lowerCase
              (laxTextOf ctx targetElement) = true)
            ∧ ¬ (elemChildPaths ctx.dom targetElement).any
                (fun child => strContains (getElementText ctx child).lowerCase
                  (laxTextOf ctx targetElement)) = true)
         then [laxTextCandidate ctx targetElement]
         else if (getElementText ctx targetElement).full.length ≤ 80 then
           (if (listMapGet tables.textToElements (getElementText ctx targetElement).full).filter
                 (fun e => inScope root e) = [targetElement]
            then [exactTextCandidate ctx targetElement] else [])
         else []) := by
    unfold tryTextCandidates
    rw [h1, h2]
    simp only [Bool.false_eq_true, if_false]
    have h3' : takeStr (getElementText ctx targetElement).lowerCase 80 ≠ "" := h3
    rw [if_neg h3']
    rfl
  rw [hdef]
  by_cases hS : ((¬ hasTwoOccurences (getElementText ctx (rootTextElem root)).lowerCase
          (laxTextOf ctx targetElement) = true)
        ∧ ¬ (elemChildPaths ctx.dom targetElement).any
            (fun child => strContains (getElementText ctx child).lowerCase
              (laxTextOf ctx targetElement)) = true)
  · rw [if_pos hS]
    refine ⟨⟨fun _ => hSingleIff.1 hS, fun _ => rfl⟩, ?_, ?_⟩
    · intro _ hmem
      have := List.mem_singleton.1 hmem
      exact laxText_ne_exactText ctx targetElement this.symm
    · intro hno _
      exact absurd (hSingleIff.1 hS) hno
  · rw [if_neg hS]
    have hnotP : ¬ (occCount (getElementText ctx (rootTextElem root)).lowerCase
          (laxTextOf ctx targetElement) = 1
        ∧ ∀ child ∈ elemChildPaths ctx.dom targetElement,
            strContains (getElementText ctx child).lowerCase (laxTextOf ctx targetElement) = false) :=
      fun hP => hS (hSingleIff.2 hP)
    refine ⟨?_, ?_, ?_⟩
    · constructor
      · intro heq
        exfalso
        split_ifs at heq with hlen huniq
        · have hx : exactTextCandidate ctx targetElement = laxTextCandidate ctx targetElement := by
            simpa using heq
          exact laxText_ne_exactText ctx targetElement hx.symm
      · intro hP
        exact absurd hP hnotP
    · intro hmem
      exfalso
      split_ifs at hmem with hlen huniq
      · exact laxText_ne_exactText ctx targetElement (List.mem_singleton.1 hmem)
      all_goals simp at hmem
    · intro _ hlen
      rw [if_pos hlen]
      refine ⟨rfl, ?_⟩
      simp [exactTextCandidate, laxTextCandidate, SelectorCandidate.score, SelectorToken.score]

/-- C4 witness: `<button>Go</button>` in a scope whose text is `Go Hi`: the
lax text `go` occurs exactly once and in no child, and the lax candidate is
emitted. -/
theorem claim4_tryText_lax_iff_witness :
    tryTextCandidates exCtx1 IndexTables.empty (some []) [0] exOptions1
        = [laxTextCandidate exCtx1 [0]] :=
  ((claim4_tryText_lax_iff exCtx1 IndexTables.empty (some []) [0] exOptions1
      rfl rfl (by decide) (by decide)).1).2 ⟨by decide, by decide⟩

/-- C1: evaluation at the failing input `exCtx1` (a scope holding
`<button data-testid="submit">Go</button>` and `<span>Hi</span>`; the
test-id value `submit` is unique to the button).  `_preprocessTree` keys
every element under the target's test-id value, so the test-id candidate
receives a spurious positional-index token (score `kNthScoreMin`), its total
score 5002 loses to the role candidate (510), and the generated selector is
the role selector — not the test-id selector without an index token that the
claim requires. -/
theorem claim1_testid_not_chosen_eval :
    SelectorGenerator.generateSelector exCtx1 [0] exOptions1
        = some ⟨"internal:role=button", [[0]]⟩
    ∧ (tryInternalEnginesCandidates exCtx1
          (preprocessTree exCtx1 (some []) [0] exOptions1) (some []) [0]
          exOptions1).map SelectorCandidate.tokens
        = [[.testId kTestIdScore "submit" true, .nth kNthScoreMin 0]] := by
  constructor
  · decide
  · decide

/-- C2: evaluation at the failing input `exCtx2` (target
`<button data-testid="submit" title="b">`, sibling `<span title="a">`).
The span appears in the title table under the target's title `b` and in the
test-id table under the target's value `submit`, although its own title is
`a` and it carries no test-id attribute; the key `a` has no entry at all. -/
theorem claim2_preprocess_tables_eval :
    exTables2.titleToElements = [("b", [[0], [1]])]
    ∧ getAttr exDom2 [1] "title" = some "a"
    ∧ listMapGet exTables2.titleToElements "a" = []
    ∧ exTables2.testIdAttributeToElements = [("submit", [[0], [1]])]
    ∧ getAttr exDom2 [1] "data-testid" = none := by
  decide

/-- C7: evaluation at the failing input `exCtx7` (`<img alt="Logo">`): both
alt-attribute candidates carry the attribute name `placeholder`, and the lax
one stringifies to an `internal:attr` selector naming `placeholder`, not
`alt`. -/
theorem claim7_alt_token_names_placeholder_eval :
    (tryInternalEnginesCandidates exCtx7 exTables7 (some []) [0] exOptions7)
        = [⟨[.attr (kAltTextScore + kExactPenalty) "placeholder" "Logo" true]⟩,
           ⟨[.attr kAltTextScore "placeholder" "Logo" false]⟩]
    ∧ stringifyToken (.attr kAltTextScore "placeholder" "Logo" false)
        = "internal:attr=[placeholder=\"Logo\"i]" := by
  decide

/-! ### Support lemmas for the totality claim -/

theorem str_ne_empty_iff (s : String) : s ≠ "" ↔ s.data ≠ [] := by
  constructor
  · intro h hd
    apply h
    cases s
    cases hd
    rfl
  · intro h hs
    apply h
    rw [hs]

theorem str_append_ne_left (a b : String) (h : a ≠ "") : a ++ b ≠ "" := by
  rw [str_ne_empty_iff] at h ⊢
  intro hd
  have : a.data ++ b.data = [] := hd
  exact h (List.append_eq_nil.1 this).1

theorem str_append_ne_right (a b : String) (h : b ≠ "") : a ++ b ≠ "" := by
  rw [str_ne_empty_iff] at h ⊢
  intro hd
  have : a.data ++ b.data = [] := hd
  exact h (List.append_eq_nil.1 this).2

theorem joinSep_ne (sep : String) (l : List String) (hne : l ≠ [])
    (hall : ∀ s ∈ l, s ≠ "") : joinSep sep l ≠ "" := by
  match l with
  | [] => exact absurd rfl hne
  | [s] => exact hall s (by simp)
  | s :: t :: rest =>
    show s ++ sep ++ joinSep sep (t :: rest) ≠ ""
    exact str_append_ne_left _ _ (str_append_ne_left _ _ (hall s (by simp)))

theorem startsWithStr_ne (x : String) (h : startsWithStr x ".." = true) : x ≠ "" := by
  rw [str_ne_empty_iff]
  intro hd
  unfold startsWithStr at h
  rw [hd] at h
  simp at h

theorem stringifyToken_ne (t : SelectorToken) (h : tokenOK t) : stringifyToken t ≠ "" := by
  cases t with
  | css s c => exact h
  | nth s i => exact str_append_ne_left _ _ (by decide)
  | text s v e => exact str_append_ne_left _ _ (by decide)
  | testId s v e => exact str_append_ne_left _ _ (by decide)
  | attr s a v e =>
    show "internal:attr=[" ++ a ++ "=" ++ escapeForAttributeSelector v e ++ "]" ≠ ""
    exact str_append_ne_left _ "]"
      (str_append_ne_left _ (escapeForAttributeSelector v e)
        (str_append_ne_left _ "=" (str_append_ne_left "internal:attr=[" a (by decide))))
  | role s r n e =>
    cases n with
    | none =>
      show "internal:role=" ++ r ++ "" ≠ ""
      exact str_append_ne_left _ _ (str_append_ne_left "internal:role=" r (by decide))
    | some nm =>
      show "internal:role=" ++ r ++ ("[name=" ++ escapeForAttributeSelector nm e ++ "]") ≠ ""
      exact str_append_ne_left _ _ (str_append_ne_left "internal:role=" r (by decide))
  | xpath s x =>
    show (if startsWithStr x ".." then x else "xpath=" ++ x) ≠ ""
    split_ifs with hx
    · exact startsWithStr_ne x hx
    · exact str_append_ne_left _ _ (by decide)

theorem selector_ne_of_candOK (c : SelectorCandidate) (h : candOK c) : c.selector ≠ "" := by
  obtain ⟨hne, hall⟩ := h
  unfold SelectorCandidate.selector
  apply joinSep_ne
  · simpa using hne
  · intro s hs
    obtain ⟨t, ht, rfl⟩ := List.mem_map.1 hs
    exact stringifyToken_ne t (hall t ht)

theorem candOK_single (t : SelectorToken) (h : tokenOK t) : candOK ⟨[t]⟩ := by
  exact ⟨by simp, by simpa using h⟩

theorem candOK_append (a b : SelectorCandidate) (ha : candOK a) (hb : candOK b) :
    candOK (a.append b) := by
  refine ⟨by simp [SelectorCandidate.append, ha.1], ?_⟩
  intro t ht
  have ht' : t ∈ a.tokens ∨ t ∈ b.tokens := by
    simpa [SelectorCandidate.append] using ht
  rcases ht' with h | h
  · exact ha.2 t h
  · exact hb.2 t h

theorem candOK_appendNth (c : SelectorCandidate) (i : Int) (total : Nat) (h : candOK c) :
    candOK (c.appendNth i total) := by
  refine ⟨by simp [SelectorCandidate.appendNth], ?_⟩
  intro t ht
  have ht' : t ∈ c.tokens ∨ t = SelectorToken.nth (nthTokenScore i) i := by
    simpa [SelectorCandidate.appendNth] using ht
  rcases ht' with hh | hh
  · exact h.2 t hh
  · subst hh
    trivial

theorem candOK_nthIfMultiple (target : EPath) (elems : List EPath) (c : SelectorCandidate)
    (h : candOK c) : candOK (nthIfMultiple target elems c) := by
  unfold nthIfMultiple
  split_ifs
  · exact candOK_appendNth _ _ _ h
  · exact h

theorem collOK_empty : collOK SelectorCandidateCollection.empty := by
  intro c hc
  cases hc

theorem updateCand_best_cases (col : SelectorCandidateCollection) (c : SelectorCandidate) :
    (col.updateWithCandidate c).best? = some c ∨ col.updateWithCandidate c = col := by
  unfold SelectorCandidateCollection.updateWithCandidate
  cases col.best? with
  | none => exact Or.inl rfl
  | some b0 =>
    by_cases h : c.score < b0.score
    · simp [h]
    · simp [h]

theorem collOK_updateCand (col : SelectorCandidateCollection) (c : SelectorCandidate)
    (hcol : collOK col) (hc : candOK c) : collOK (col.updateWithCandidate c) := by
  intro b hb
  rcases updateCand_best_cases col c with h | h
  · rw [h] at hb
    cases hb
    exact hc
  · rw [h] at hb
    exact hcol b hb

theorem collOK_updateColl (col other : SelectorCandidateCollection)
    (hcol : collOK col) (hother : collOK other) : collOK (col.updateWithCollection other) := by
  unfold SelectorCandidateCollection.updateWithCollection
  cases ho : other.best? with
  | none => exact hcol
  | some b => exact collOK_updateCand col b hcol (hother b ho)

theorem collOK_chain (col other : SelectorCandidateCollection)
    (hcol : collOK col) (hother : collOK other) : collOK (col.chain other) := by
  intro b hb
  unfold SelectorCandidateCollection.chain at hb
  cases h1 : col.best? with
  | none => rw [h1] at hb; cases hb
  | some a =>
    cases h2 : other.best? with
    | none => rw [h1, h2] at hb; cases hb
    | some b2 =>
      rw [h1, h2] at hb
      cases hb
      exact candOK_append a b2 (hcol a h1) (hother b2 h2)

theorem collOK_foldl_cands (l : List SelectorCandidate) :
    ∀ (col : SelectorCandidateCollection), collOK col → (∀ c ∈ l, candOK c) →
      collOK (l.foldl SelectorCandidateCollection.updateWithCandidate col) := by
  induction l with
  | nil => exact fun col h _ => h
  | cons c rest ih =>
    intro col hcol hall
    exact ih _ (collOK_updateCand col c hcol (hall c (by simp))) (fun x hx => hall x (by simp [hx]))

theorem updateCand_isSome (col : SelectorCandidateCollection) (c : SelectorCandidate) :
    (col.updateWithCandidate c).best?.isSome := by
  obtain ⟨b, hb, _⟩ := updateWithCandidate_isSome_le col c
  simp [hb]

theorem updateColl_isSome (col other : SelectorCandidateCollection)
    (h : col.best?.isSome) : (col.updateWithCollection other).best?.isSome := by
  unfold SelectorCandidateCollection.updateWithCollection
  cases ho : other.best? with
  | none => exact h
  | some b => exact updateCand_isSome col b

theorem pathIn_iff (r e : EPath) : pathIn r e = true ↔ r = e.take r.length := by
  unfold pathIn
  exact beq_iff_eq

theorem pathIn_refl (e : EPath) : pathIn e e = true := by
  rw [pathIn_iff]
  simp

theorem pathIn_length_le (r e : EPath) (h : pathIn r e = true) : r.length ≤ e.length := by
  rw [pathIn_iff] at h
  have := congrArg List.length h
  simp at this
  omega

theorem pathIn_trans (a b c : EPath) (hab : pathIn a b = true) (hbc : pathIn b c = true) :
    pathIn a c = true := by
  have hlen := pathIn_length_le a b hab
  rw [pathIn_iff] at hab hbc ⊢
  calc a = b.take a.length := hab
    _ = (c.take b.length).take a.length := by rw [← hbc]
    _ = c.take a.length := by
        rw [List.take_take]
        congr 1
        omega

theorem pathIn_lt_of_ne (r e : EPath) (h : pathIn r e = true) (hne : r ≠ e) :
    r.length < e.length := by
  have hle := pathIn_length_le r e h
  rcases Nat.lt_or_ge r.length e.length with hlt | hge
  · exact hlt
  · exfalso
    apply hne
    rw [pathIn_iff] at h
    have : r.length = e.length := by omega
    rw [h, this, List.take_length]

theorem pathIn_dropLast (r e : EPath) (h : pathIn r e = true) (hlt : r.length < e.length) :
    pathIn r e.dropLast = true := by
  rw [pathIn_iff] at h ⊢
  rw [List.dropLast_eq_take, List.take_take]
  rw [h]
  congr 1
  have : (e.take r.length).length = r.length := by
    simp [List.length_take]
    omega
  rw [this]
  omega

theorem pathIn_dropLast_self (e : EPath) : pathIn e.dropLast e = true := by
  rw [pathIn_iff, List.dropLast_eq_take]
  congr 1
  simp [List.length_take]

theorem pathIn_append_singleton (p : EPath) (i : Nat) : pathIn p (p ++ [i]) = true := by
  rw [pathIn_iff]
  simp

theorem ancestorsFromFuel_none (root : Option EPath) (fuel : Nat) :
    ancestorsFromFuel root fuel none = [] := by
  cases fuel <;> rfl

theorem mem_ancestorsFromFuel (root : Option EPath) :
    ∀ (fuel : Nat) (q x : EPath), x ∈ ancestorsFromFuel root fuel (some q) →
      pathIn x q = true ∧ x.length ≤ q.length ∧ root ≠ some x := by
  intro fuel
  induction fuel with
  | zero =>
    intro q x hx
    simp [ancestorsFromFuel] at hx
  | succ f ih =>
    intro q x hx
    simp only [ancestorsFromFuel] at hx
    split_ifs at hx with hroot
    · simp at hx
    · rcases List.mem_cons.1 hx with h | h
      · subst h
        exact ⟨pathIn_refl x, le_rfl, hroot⟩
      · cases q with
        | nil =>
          rw [show parentOf [] = none from rfl, ancestorsFromFuel_none] at h
          cases h
        | cons a as =>
          rw [show parentOf (a :: as) = some ((a :: as).dropLast) from rfl] at h
          obtain ⟨h1, h2, h3⟩ := ih _ x h
          refine ⟨pathIn_trans x _ _ h1 (pathIn_dropLast_self _), ?_, h3⟩
          have hdl : ((a :: as).dropLast).length = as.length := by simp
          have hca : (a :: as).length = as.length + 1 := by simp
          omega

theorem mem_ancestorsFromFuel_of_pathIn (r : EPath) :
    ∀ (fuel : Nat) (q x : EPath), pathIn r q = true →
      x ∈ ancestorsFromFuel (some r) fuel (some q) → pathIn r x = true := by
  intro fuel
  induction fuel with
  | zero =>
    intro q x _ hx
    simp [ancestorsFromFuel] at hx
  | succ f ih =>
    intro q x hr hx
    simp only [ancestorsFromFuel] at hx
    split_ifs at hx with hroot
    · simp at hx
    · rcases List.mem_cons.1 hx with h | h
      · subst h
        exact hr
      · cases q with
        | nil =>
          rw [show parentOf [] = none from rfl, ancestorsFromFuel_none] at h
          cases h
        | cons a as =>
          rw [show parentOf (a :: as) = some ((a :: as).dropLast) from rfl] at h
          have hne : r ≠ a :: as := by
            intro hh
            exact hroot (by rw [hh])
          have hlt := pathIn_lt_of_ne r (a :: as) hr hne
          exact ih _ x (pathIn_dropLast r (a :: as) hr hlt) h

theorem mem_ancestorsFrom_some (root : Option EPath) (q x : EPath)
    (hx : x ∈ ancestorsFrom root (some q)) :
    pathIn x q = true ∧ x.length ≤ q.length ∧ root ≠ some x :=
  mem_ancestorsFromFuel root _ q x hx

theorem mem_ancestorsFrom_parentOf (root : Option EPath) (e x : EPath)
    (hx : x ∈ ancestorsFrom root (parentOf e)) :
    pathIn x e = true ∧ x.length < e.length ∧ root ≠ some x := by
  cases e with
  | nil =>
    rw [show parentOf [] = none from rfl] at hx
    rw [show ancestorsFrom root none = [] from rfl] at hx
    cases hx
  | cons a as =>
    rw [show parentOf (a :: as) = some ((a :: as).dropLast) from rfl] at hx
    obtain ⟨h1, h2, h3⟩ := mem_ancestorsFrom_some root _ x hx
    refine ⟨pathIn_trans x _ _ h1 (pathIn_dropLast_self _), ?_, h3⟩
    have : ((a :: as).dropLast).length = as.length := by simp
    simp only [List.length_cons]
    omega

theorem scopeOK_of_mem_chain (root : Option EPath) (q x : EPath) (h : scopeOK root q)
    (hx : x ∈ ancestorsFrom root (some q)) : scopeOK root x := by
  intro r hr
  obtain ⟨hq1, hq2⟩ := h r hr
  obtain ⟨h1, h2, h3⟩ := mem_ancestorsFrom_some root q x hx
  subst hr
  refine ⟨mem_ancestorsFromFuel_of_pathIn r _ q x hq1 hx, ?_⟩
  intro hh
  exact h3 (by rw [hh])

theorem scopeOK_of_mem_parentOf (root : Option EPath) (e x : EPath) (h : scopeOK root e)
    (hx : x ∈ ancestorsFrom root (parentOf e)) : scopeOK root x := by
  intro r hr
  obtain ⟨he1, he2⟩ := h r hr
  obtain ⟨h1, h2, h3⟩ := mem_ancestorsFrom_parentOf root e x hx
  subst hr
  constructor
  · cases e with
    | nil =>
      rw [show parentOf [] = none from rfl] at hx
      rw [show ancestorsFrom (some r) none = [] from rfl] at hx
      cases hx
    | cons a as =>
      rw [show parentOf (a :: as) = some ((a :: as).dropLast) from rfl] at hx
      have hlt := pathIn_lt_of_ne r (a :: as) he1 he2
      exact mem_ancestorsFromFuel_of_pathIn r _ _ x
        (pathIn_dropLast r (a :: as) he1 hlt) hx
  · intro hh
    exact h3 (by rw [hh])

theorem fallbackOK_of_scopeOK (root : Option EPath) (e : EPath) (h : scopeOK root e) :
    fallbackOK root e := by
  constructor
  · intro heq
    exact (h e heq).2 rfl
  · intro he
    cases hroot : root with
    | none => rfl
    | some r =>
      obtain ⟨h1, h2⟩ := h r hroot
      subst he
      exfalso
      apply h2
      rw [pathIn_iff] at h1
      simpa using h1

theorem fallbackOK_of_parent (p e : EPath) (hpin : pathIn p e = true) (hne : p ≠ e) :
    fallbackOK (some p) e := by
  constructor
  · intro heq
    exact hne (Option.some.inj heq)
  · intro he
    subst he
    exfalso
    apply hne
    rw [pathIn_iff] at hpin
    simpa using hpin

theorem pathIn_of_mem_elemChildPaths (d : DomNode) (p c : EPath)
    (hc : c ∈ elemChildPaths d p) : pathIn p c = true := by
  unfold elemChildPaths at hc
  cases hnode : nodeAt d p with
  | none => rw [hnode] at hc; cases hc
  | some node =>
    cases node with
    | text v => rw [hnode] at hc; cases hc
    | elem n attrs cs =>
      rw [hnode] at hc
      obtain ⟨i, _, rfl⟩ := List.mem_map.1 hc
      exact pathIn_append_singleton p i

theorem foldl_mem_preserve {β : Type} (f : List EPath → β → List EPath)
    (hf : ∀ acc b x, x ∈ acc → x ∈ f acc b) :
    ∀ (l : List β) (acc : List EPath) (x : EPath), x ∈ acc → x ∈ l.foldl f acc := by
  intro l
  induction l with
  | nil => exact fun acc x hx => hx
  | cons b rest ih => exact fun acc x hx => ih _ x (hf acc b x hx)

theorem shallowDescendants_superset (ctx : Ctx) :
    ∀ (depth : Nat) (p : EPath) (total : Nat) (acc : List EPath) (x : EPath),
      x ∈ acc → x ∈ shallowDescendants ctx p depth total acc := by
  intro depth
  induction depth with
  | zero =>
    intro p total acc x hx
    simp only [shallowDescendants]
    exact List.mem_append_left _ hx
  | succ d ih =>
    intro p total acc x hx
    simp only [shallowDescendants]
    apply foldl_mem_preserve
    · intro acc' b y hy
      by_cases hlen : acc'.length < total
      · rw [if_pos hlen]
        exact ih b total acc' y hy
      · rw [if_neg hlen]
        exact hy
    · exact List.mem_append_left _ hx

theorem shallowDescendants_self (ctx : Ctx) (depth : Nat) (p : EPath) (total : Nat)
    (acc : List EPath) : p ∈ shallowDescendants ctx p depth total acc := by
  cases depth with
  | zero =>
    simp only [shallowDescendants]
    exact List.mem_append_right _ (by simp)
  | succ d =>
    simp only [shallowDescendants]
    apply foldl_mem_preserve
    · intro acc' b y hy
      by_cases hlen : acc'.length < total
      · rw [if_pos hlen]
        exact shallowDescendants_superset ctx d b total acc' y hy
      · rw [if_neg hlen]
        exact hy
    · exact List.mem_append_right _ (by simp)

theorem mem_shallowDescendants (ctx : Ctx) :
    ∀ (depth : Nat) (p : EPath) (total : Nat) (acc : List EPath) (x : EPath),
      x ∈ shallowDescendants ctx p depth total acc → x ∈ acc ∨ pathIn p x = true := by
  intro depth
  induction depth with
  | zero =>
    intro p total acc x hx
    simp only [shallowDescendants] at hx
    rcases List.mem_append.1 hx with h | h
    · exact Or.inl h
    · right
      have : x = p := by simpa using h
      subst this
      exact pathIn_refl x
  | succ d ih =>
    intro p total acc x hx
    simp only [shallowDescendants] at hx
    have aux : ∀ (l : List EPath), (∀ c ∈ l, pathIn p c = true) →
        ∀ (st : List EPath), (∀ y ∈ st, y ∈ acc ∨ pathIn p y = true) →
        ∀ x ∈ l.foldl (fun res child =>
            if res.length < total then shallowDescendants ctx child d total res else res) st,
          x ∈ acc ∨ pathIn p x = true := by
      intro l
      induction l with
      | nil => exact fun _ st hst x hx => hst x hx
      | cons c cs ihl =>
        intro hcs st hst y hy
        refine ihl (fun c' hc' => hcs c' (List.mem_cons_of_mem _ hc')) _ ?_ y hy
        intro z hz
        simp only [] at hz
        by_cases hlen : st.length < total
        · rw [if_pos hlen] at hz
          rcases ih c total st z hz with h | h
          · exact hst z h
          · right
            exact pathIn_trans p c z (hcs c (by simp)) h
        · rw [if_neg hlen] at hz
          exact hst z hz
    refine aux (elemChildPaths ctx.dom p) (fun c hc => pathIn_of_mem_elemChildPaths ctx.dom p c hc)
      (acc ++ [p]) ?_ x hx
    intro y hy
    rcases List.mem_append.1 hy with h | h
    · exact Or.inl h
    · right
      have : y = p := by simpa using h
      subst this
      exact pathIn_refl y

/-- `generateWithoutChaining` always holds a best candidate (the structural
fallback is added when nothing else produced one). -/
theorem gwc_isSome (ctx : Ctx) (tables : IndexTables) (root : Option EPath)
    (targetElement : EPath) (options : GenOptions) (allowTextEngine : Bool) :
    (generateWithoutChaining ctx tables root targetElement options allowTextEngine).best?.isSome := by
  unfold generateWithoutChaining
  cases hcol : (List.foldl SelectorCandidateCollection.updateWithCandidate
      SelectorCandidateCollection.empty
      (tryInternalEnginesCandidates ctx tables root targetElement options ++
        tryRoleCandidates ctx tables root targetElement options ++
          tryCSSCandidates ctx tables root targetElement options ++
            if allowTextEngine then tryTextCandidates ctx tables root targetElement options
            else [])).best? with
  | none => simp only [hcol]; exact updateCand_isSome _ _
  | some b => simp only [hcol]; simp [hcol]

theorem allP_nil {α : Type} (P : α → Prop) : ∀ x ∈ ([] : List α), P x := by
  intro x hx
  cases hx

theorem allP_cons {α : Type} (P : α → Prop) (a : α) (l : List α) (ha : P a)
    (hl : ∀ x ∈ l, P x) : ∀ x ∈ a :: l, P x := by
  intro x hx
  rcases List.mem_cons.1 hx with h | h
  · rw [h]; exact ha
  · exact hl x h

theorem allP_append {α : Type} (P : α → Prop) (l1 l2 : List α) (h1 : ∀ x ∈ l1, P x)
    (h2 : ∀ x ∈ l2, P x) : ∀ x ∈ l1 ++ l2, P x := by
  intro x hx
  rcases List.mem_append.1 hx with h | h
  · exact h1 x h
  · exact h2 x h

theorem allP_ite {α : Type} (P : α → Prop) (c : Prop) [Decidable c] (l1 l2 : List α)
    (h1 : ∀ x ∈ l1, P x) (h2 : ∀ x ∈ l2, P x) : ∀ x ∈ (if c then l1 else l2), P x := by
  split_ifs
  · exact h1
  · exact h2

/-- Every candidate `_tryInternalEngines` offers is well-formed: its tokens
are `internal:`-engine tokens (never raw CSS), so they cannot stringify to the
empty string. -/
theorem tryInternal_all_candOK (ctx : Ctx) (tables : IndexTables) (root : Option EPath)
    (targetElement : EPath) (options : GenOptions) :
    ∀ c ∈ tryInternalEnginesCandidates ctx tables root targetElement options, candOK c := by
  intro c hc
  simp only [tryInternalEnginesCandidates] at hc
  refine allP_ite _ _ _ _ (allP_nil _) ?_ c hc
  refine allP_append _ _ _ (allP_append _ _ _ (allP_append _ _ _ ?_ ?_) ?_) ?_
  · exact allP_ite _ _ _ _
      (allP_cons _ _ _ (candOK_nthIfMultiple _ _ _ (candOK_single _ trivial)) (allP_nil _))
      (allP_nil _)
  · exact allP_ite _ _ _ _
      (allP_cons _ _ _ (candOK_nthIfMultiple _ _ _ (candOK_single _ trivial))
        (allP_cons _ _ _ (candOK_nthIfMultiple _ _ _ (candOK_single _ trivial)) (allP_nil _)))
      (allP_nil _)
  · exact allP_ite _ _ _ _
      (allP_cons _ _ _ (candOK_nthIfMultiple _ _ _ (candOK_single _ trivial))
        (allP_cons _ _ _ (candOK_nthIfMultiple _ _ _ (candOK_single _ trivial)) (allP_nil _)))
      (allP_nil _)
  · exact allP_ite _ _ _ _
      (allP_cons _ _ _ (candOK_nthIfMultiple _ _ _ (candOK_single _ trivial)) (allP_nil _))
      (allP_nil _)

/-- Every candidate `_tryRole` offers is well-formed. -/
theorem tryRole_all_candOK (ctx : Ctx) (tables : IndexTables) (root : Option EPath)
    (targetElement : EPath) (options : GenOptions) :
    ∀ c ∈ tryRoleCandidates ctx tables root targetElement options, candOK c := by
  intro c hc
  simp only [tryRoleCandidates] at hc
  split_ifs at hc with homit hskip
  · cases hc
  · split at hc
    · cases hc
    · rw [List.mem_singleton.1 hc]
      exact candOK_nthIfMultiple _ _ _ (candOK_single _ trivial)
  · split at hc
    · cases hc
    · split_ifs at hc with hlen
      · rcases List.mem_cons.1 hc with h1 | h1
        · rw [h1]; exact candOK_nthIfMultiple _ _ _ (candOK_single _ trivial)
        · rw [List.mem_singleton.1 h1]
          exact candOK_nthIfMultiple _ _ _ (candOK_single _ trivial)
      · rcases List.mem_cons.1 hc with h1 | h1
        · rw [h1]; exact candOK_nthIfMultiple _ _ _ (candOK_single _ trivial)
        · rcases List.mem_cons.1 h1 with h2 | h2
          · rw [h2]; exact candOK_nthIfMultiple _ _ _ (candOK_single _ trivial)
          · rw [List.mem_singleton.1 h2]
            exact candOK_nthIfMultiple _ _ _ (candOK_single _ trivial)

/-- Every candidate `_tryText` offers is well-formed. -/
theorem tryText_all_candOK (ctx : Ctx) (tables : IndexTables) (root : Option EPath)
    (targetElement : EPath) (options : GenOptions) :
    ∀ c ∈ tryTextCandidates ctx tables root targetElement options, candOK c := by
  intro c hc
  simp only [tryTextCandidates] at hc
  split_ifs at hc
  all_goals
    first
      | (rw [List.mem_singleton.1 hc]; exact candOK_single _ trivial)
      | cases hc

/-- Every candidate of the `#id` branch of `_tryCSS` is well-formed: its CSS
text starts with `#` or `[id=`. -/
theorem tryCSSId_all_candOK (ctx : Ctx) (tables : IndexTables) (root : Option EPath)
    (targetElement : EPath) :
    ∀ c ∈ tryCSSIdCandidates ctx tables root targetElement, candOK c := by
  intro c hc
  unfold tryCSSIdCandidates at hc
  split at hc
  · rename_i o idv heq
    split_ifs at hc with hok hsimple
    · rw [List.mem_singleton.1 hc]
      refine candOK_nthIfMultiple _ _ _ (candOK_single _ ?_)
      show "#" ++ idv ≠ ""
      exact str_append_ne_left _ _ (by decide)
    · rw [List.mem_singleton.1 hc]
      refine candOK_nthIfMultiple _ _ _ (candOK_single _ ?_)
      show "[id=" ++ quoteAttributeValue idv ++ "]" ≠ ""
      exact str_append_ne_right _ _ (by decide)
    · cases hc
  · cases hc

/-- Every candidate of a `data-test*` branch of `_tryCSS` is well-formed: its
CSS text ends with `]`. -/
theorem tryCSSData_all_candOK (ctx : Ctx) (root : Option EPath) (targetElement : EPath)
    (options : GenOptions) (attrName : String) (tbl : List (String × List EPath)) :
    ∀ c ∈ tryCSSDataAttrCandidates ctx root targetElement options attrName tbl, candOK c := by
  intro c hc
  unfold tryCSSDataAttrCandidates at hc
  split at hc
  · rename_i o value heq
    split_ifs at hc with hok
    · rw [List.mem_singleton.1 hc]
      refine candOK_nthIfMultiple _ _ _ (candOK_single _ ?_)
      show "[" ++ attrName ++ "=" ++ quoteAttributeValue value ++ "]" ≠ ""
      exact str_append_ne_right _ _ (by decide)
    · cases hc
  · cases hc

/-- Every literal CSS text of `_tryCSS`'s `cssCandidates` array is
non-empty. -/
theorem cssLiteralList_fst_ne (ctx : Ctx) (targetElement : EPath) :
    ∀ cs ∈ cssLiteralList ctx targetElement, cs.1 ≠ "" := by
  intro cs hcs
  unfold cssLiteralList at hcs
  rcases List.mem_append.1 hcs with h | hD
  · rcases List.mem_append.1 h with h | hC
    · rcases List.mem_append.1 h with hA | hB
      · split_ifs at hA with hcond
        · obtain ⟨attrNm, _, rfl⟩ := List.mem_map.1 hA
          exact str_append_ne_right _ _ (by decide)
        · cases hA
      · split_ifs at hB with hcond
        · rw [List.mem_singleton.1 hB]
          exact str_append_ne_right _ _ (by decide)
        · cases hB
    · split_ifs at hC with hcond
      · rw [List.mem_singleton.1 hC]
        show cssEscape (lowerStr (nodeNameAt ctx.dom targetElement)) ≠ ""
        rcases hcond.1 with h2 | h2 | h2 <;> rw [h2] <;> decide
      · cases hC
  · split_ifs at hD with hcond
    · rw [List.mem_singleton.1 hD]
      exact str_append_ne_right _ _ (by decide)
    · cases hD

/-- Every candidate `_tryCSS` offers is well-formed. -/
theorem tryCSS_all_candOK (ctx : Ctx) (tables : IndexTables) (root : Option EPath)
    (targetElement : EPath) (options : GenOptions) :
    ∀ c ∈ tryCSSCandidates ctx tables root targetElement options, candOK c := by
  intro c hc
  simp only [tryCSSCandidates] at hc
  rcases List.mem_append.1 hc with h | hQ
  · rcases List.mem_append.1 h with hId | hData
    · exact tryCSSId_all_candOK ctx tables root targetElement c hId
    · rcases List.mem_append.1 hData with h1 | h3
      · rcases List.mem_append.1 h1 with h1a | h1b
        · exact tryCSSData_all_candOK ctx root targetElement options _ _ c h1a
        · exact tryCSSData_all_candOK ctx root targetElement options _ _ c h1b
      · exact tryCSSData_all_candOK ctx root targetElement options _ _ c h3
  · obtain ⟨cs, hcs, rfl⟩ := List.mem_map.1 hQ
    show candOK (nthIfMultiple targetElement (ctx.caps.queryCSS root cs.1) ⟨[.css cs.2 cs.1]⟩)
    exact candOK_nthIfMultiple _ _ _
      (candOK_single _ (cssLiteralList_fst_ne ctx targetElement cs hcs))

/-- The bottom-up CSS token walk emits at least one token whenever the
element is neither the scope root nor the document element. -/
theorem cssPathTokens_ne_nil (ctx : Ctx) (root : Option EPath) (e : EPath)
    (h1 : root ≠ some e) (h2 : e ≠ []) : cssPathTokens ctx root e ≠ [] := by
  unfold cssPathTokens
  cases e with
  | nil => exact absurd rfl h2
  | cons a as =>
    simp only [List.length_cons, cssPathTokensFuel]
    rw [if_neg h1]
    rw [show parentOf (a :: as) = some ((a :: as).dropLast) from rfl]
    simp

/-- The structural fallback selector is non-empty whenever the element is not
the scope root, and — when the element is the document element — the scope is
the whole document. -/
theorem generateCSSSelector_ne (ctx : Ctx) (root : Option EPath) (e : EPath)
    (h : fallbackOK root e) : generateCSSSelector ctx root e ≠ "" := by
  obtain ⟨h1, h2⟩ := h
  unfold generateCSSSelector
  split_ifs with hcase
  · decide
  · apply joinSep_ne
    · have hne2 : e ≠ [] := by
        intro he
        exact hcase ⟨h2 he, he⟩
      have h3 := cssPathTokens_ne_nil ctx root e h1 hne2
      intro hmap
      apply h3
      have h4 : (cssPathTokens ctx root e).reverse = [] := by
        cases hr : (cssPathTokens ctx root e).reverse with
        | nil => rfl
        | cons x xs => rw [hr] at hmap; simp at hmap
      simpa using h4
    · intro s hs
      obtain ⟨tok, htok, rfl⟩ := List.mem_map.1 hs
      exact str_append_ne_left _ _ (by decide)

theorem lazyCSS_candOK (ctx : Ctx) (root : Option EPath) (e : EPath)
    (h : fallbackOK root e) : candOK (lazyCSSSelector ctx root e) :=
  candOK_single _ (generateCSSSelector_ne ctx root e h)

/-- `_generateWithoutChaining` only ever holds well-formed candidates: every
generator's candidates are well-formed, and so is the structural fallback
under `fallbackOK`. -/
theorem gwc_collOK (ctx : Ctx) (tables : IndexTables) (root : Option EPath)
    (targetElement : EPath) (options : GenOptions) (allowTextEngine : Bool)
    (hfb : fallbackOK root targetElement) :
    collOK (generateWithoutChaining ctx tables root targetElement options allowTextEngine) := by
  unfold generateWithoutChaining
  have hall : ∀ c ∈ tryInternalEnginesCandidates ctx tables root targetElement options
      ++ tryRoleCandidates ctx tables root targetElement options
      ++ tryCSSCandidates ctx tables root targetElement options
      ++ (if allowTextEngine then tryTextCandidates ctx tables root targetElement options else []),
      candOK c := by
    refine allP_append _ _ _ (allP_append _ _ _ (allP_append _ _ _ ?_ ?_) ?_) ?_
    · exact tryInternal_all_candOK ctx tables root targetElement options
    · exact tryRole_all_candOK ctx tables root targetElement options
    · exact tryCSS_all_candOK ctx tables root targetElement options
    · exact allP_ite _ _ _ _ (tryText_all_candOK ctx tables root targetElement options) (allP_nil _)
  have hbase := collOK_foldl_cands _ SelectorCandidateCollection.empty collOK_empty hall
  cases hcol : (List.foldl SelectorCandidateCollection.updateWithCandidate
      SelectorCandidateCollection.empty
      (tryInternalEnginesCandidates ctx tables root targetElement options ++
        tryRoleCandidates ctx tables root targetElement options ++
          tryCSSCandidates ctx tables root targetElement options ++
            if allowTextEngine then tryTextCandidates ctx tables root targetElement options
            else [])).best? with
  | none =>
    simp only [hcol]
    exact collOK_updateCand _ _ hbase (lazyCSS_candOK ctx root targetElement hfb)
  | some b =>
    simp only [hcol]
    exact hbase

theorem generateParent_collOK (a b : EPath) : collOK (generateParent a b) := by
  unfold generateParent
  exact collOK_updateCand _ _ collOK_empty (candOK_single _ trivial)

theorem generateParent_isSome (a b : EPath) : (generateParent a b).best?.isSome := by
  unfold generateParent
  exact updateCand_isSome _ _

theorem chain_isSome (col other : SelectorCandidateCollection)
    (h1 : col.best?.isSome) (h2 : other.best?.isSome) : (col.chain other).best?.isSome := by
  unfold SelectorCandidateCollection.chain
  cases ha : col.best? with
  | none => rw [ha] at h1; simp at h1
  | some a =>
    cases hb : other.best? with
    | none => rw [hb] at h2; simp at h2
    | some b => simp [ha, hb]

theorem updateColl_isSome_of_other (col other : SelectorCandidateCollection)
    (h : other.best?.isSome) : (col.updateWithCollection other).best?.isSome := by
  unfold SelectorCandidateCollection.updateWithCollection
  cases ho : other.best? with
  | none => rw [ho] at h; simp at h
  | some b => exact updateCand_isSome _ _

/-- A fold whose steps keep a resolved best keeps a resolved best. -/
theorem foldl_best_isSome_preserve {β : Type}
    (g : SelectorCandidateCollection → β → SelectorCandidateCollection)
    (hg : ∀ col b, col.best?.isSome → (g col b).best?.isSome) :
    ∀ (l : List β) (col : SelectorCandidateCollection), col.best?.isSome →
      (List.foldl g col l).best?.isSome := by
  intro l
  induction l with
  | nil => exact fun col h => h
  | cons b rest ih => exact fun col h => ih _ (hg col b h)

/-- A fold whose every step yields a resolved best yields one on any
non-empty list. -/
theorem foldl_isSome_of_step {β : Type}
    (g : SelectorCandidateCollection → β → SelectorCandidateCollection)
    (hg : ∀ col b, (g col b).best?.isSome) (l : List β) (hne : l ≠ [])
    (col : SelectorCandidateCollection) : (List.foldl g col l).best?.isSome := by
  cases l with
  | nil => exact absurd rfl hne
  | cons b rest =>
    show (List.foldl g (g col b) rest).best?.isSome
    exact foldl_best_isSome_preserve g (fun c x _ => hg c x) rest _ (hg col b)

/-- A fold of collection merges over per-element collections that all hold a
resolved best yields a resolved best on any non-empty list. -/
theorem foldl_updateColl_isSome_of_ne {β : Type} (g : β → SelectorCandidateCollection)
    (l : List β) (hne : l ≠ []) (hg : ∀ b ∈ l, (g b).best?.isSome)
    (col : SelectorCandidateCollection) :
    (List.foldl (fun c b => c.updateWithCollection (g b)) col l).best?.isSome := by
  cases l with
  | nil => exact absurd rfl hne
  | cons b rest =>
    show (List.foldl _ (col.updateWithCollection (g b)) rest).best?.isSome
    refine foldl_best_isSome_preserve _ ?_ rest _
      (updateColl_isSome_of_other _ _ (hg b (List.mem_cons_self _ _)))
    intro c x h
    exact updateColl_isSome _ _ h

/-- A fold preserves collection well-formedness when each step (on a list
member) does. -/
theorem foldl_collOK_mem {β : Type}
    (g : SelectorCandidateCollection → β → SelectorCandidateCollection) :
    ∀ (l : List β), (∀ col b, b ∈ l → collOK col → collOK (g col b)) →
      ∀ col, collOK col → collOK (List.foldl g col l) := by
  intro l
  induction l with
  | nil => exact fun _ col h => h
  | cons b rest ih =>
    intro hstep col h
    show collOK (List.foldl g (g col b) rest)
    exact ih (fun c x hx hc => hstep c x (List.mem_cons_of_mem _ hx) hc) _
      (hstep col b (List.mem_cons_self _ _) h)

/-- `_generateWithChaining` always resolves: its base collection already
holds the result of `_generateWithoutChaining`. -/
theorem gwcf_isSome (ctx : Ctx) (tables : IndexTables) (root : Option EPath)
    (options : GenOptions) :
    ∀ (fuel : Nat) (t : EPath) (a : Bool),
      (generateWithChainingFuel ctx tables root options fuel t a).best?.isSome := by
  intro fuel
  induction fuel with
  | zero =>
    intro t a
    show (SelectorCandidateCollection.empty.updateWithCollection
      (generateWithoutChaining ctx tables root t options a)).best?.isSome
    exact updateColl_isSome_of_other _ _ (gwc_isSome ctx tables root t options a)
  | succ f ih =>
    intro t a
    show ((ancestorsFrom root (parentOf t)).foldl
      (fun bestForElement parent =>
        bestForElement.updateWithCollection
          ((generateWithChainingFuel ctx tables root options f parent false).chain
            (generateWithoutChaining ctx tables (some parent) t options a)))
      (SelectorCandidateCollection.empty.updateWithCollection
        (generateWithoutChaining ctx tables root t options a))).best?.isSome
    refine foldl_best_isSome_preserve _ ?_ _ _
      (updateColl_isSome_of_other _ _ (gwc_isSome ctx tables root t options a))
    intro col parent h
    exact updateColl_isSome _ _ h

theorem gwch_isSome (ctx : Ctx) (tables : IndexTables) (root : Option EPath)
    (t : EPath) (options : GenOptions) (a : Bool) :
    (generateWithChaining ctx tables root t options a).best?.isSome :=
  gwcf_isSome ctx tables root options (t.length + 1) t a

/-- `_generateWithChaining` only holds well-formed candidates when the target
lies strictly inside the scope. -/
theorem gwcf_collOK (ctx : Ctx) (tables : IndexTables) (root : Option EPath)
    (options : GenOptions) :
    ∀ (fuel : Nat) (t : EPath) (a : Bool), scopeOK root t →
      collOK (generateWithChainingFuel ctx tables root options fuel t a) := by
  intro fuel
  induction fuel with
  | zero =>
    intro t a h
    show collOK (SelectorCandidateCollection.empty.updateWithCollection
      (generateWithoutChaining ctx tables root t options a))
    exact collOK_updateColl _ _ collOK_empty
      (gwc_collOK _ _ _ _ _ _ (fallbackOK_of_scopeOK root t h))
  | succ f ih =>
    intro t a h
    show collOK ((ancestorsFrom root (parentOf t)).foldl
      (fun bestForElement parent =>
        bestForElement.updateWithCollection
          ((generateWithChainingFuel ctx tables root options f parent false).chain
            (generateWithoutChaining ctx tables (some parent) t options a)))
      (SelectorCandidateCollection.empty.updateWithCollection
        (generateWithoutChaining ctx tables root t options a)))
    refine foldl_collOK_mem _ _ ?_ _
      (collOK_updateColl _ _ collOK_empty
        (gwc_collOK _ _ _ _ _ _ (fallbackOK_of_scopeOK root t h)))
    intro col parent hmem hcol
    apply collOK_updateColl _ _ hcol
    apply collOK_chain
    · exact ih parent false (scopeOK_of_mem_parentOf root t parent h hmem)
    · obtain ⟨hp1, hp2, hp3⟩ := mem_ancestorsFrom_parentOf root t parent hmem
      refine gwc_collOK _ _ _ _ _ _ (fallbackOK_of_parent parent t hp1 ?_)
      intro hpe
      rw [hpe] at hp2
      omega

theorem gwch_collOK (ctx : Ctx) (tables : IndexTables) (root : Option EPath)
    (t : EPath) (options : GenOptions) (a : Bool) (h : scopeOK root t) :
    collOK (generateWithChaining ctx tables root t options a) :=
  gwcf_collOK ctx tables root options (t.length + 1) t a h

/-- The ancestor walk starting at the target itself is non-empty whenever the
target is not the scope root. -/
theorem ancestorsFrom_some_ne (root : Option EPath) (t : EPath) (h : root ≠ some t) :
    ancestorsFrom root (some t) ≠ [] := by
  show ancestorsFromFuel root (t.length + 1) (some t) ≠ []
  simp only [ancestorsFromFuel]
  rw [if_neg h]
  simp

/-- `_generateWithRelatives` always resolves when the target is not the scope
root: its very first ancestor iteration merges the target's own chaining
collection, which always holds a best. -/
theorem gwr_isSome (ctx : Ctx) (tables : IndexTables) (root : Option EPath)
    (t : EPath) (options : GenOptions) (h : root ≠ some t) :
    (generateWithRelatives ctx tables root t options).best?.isSome := by
  unfold generateWithRelatives
  refine foldl_isSome_of_step _ ?_ _ (ancestorsFrom_some_ne root t h) _
  intro col ancestor
  show ((shallowDescendants ctx ancestor 4 100 []).foldl
    (fun result relative =>
      result.updateWithCollection
        (match (if ancestor ≠ t then
              some (generateWithoutChaining ctx tables (some ancestor) t options true)
            else none) with
          | some lm =>
            ((if relative ≠ ancestor then
                (generateWithChaining ctx tables root relative options true).chain
                  (generateParent relative ancestor)
              else generateWithChaining ctx tables root relative options true)).chain lm
          | none =>
            (if relative ≠ ancestor then
                (generateWithChaining ctx tables root relative options true).chain
                  (generateParent relative ancestor)
              else generateWithChaining ctx tables root relative options true)))
    col).best?.isSome
  refine foldl_updateColl_isSome_of_ne _ _
    (List.ne_nil_of_mem (shallowDescendants_self ctx 4 ancestor 100 [])) ?_ col
  intro relative hrel
  by_cases hat : ancestor ≠ t
  · rw [if_pos hat]
    show (((if relative ≠ ancestor then
        (generateWithChaining ctx tables root relative options true).chain
          (generateParent relative ancestor)
      else generateWithChaining ctx tables root relative options true)).chain
      (generateWithoutChaining ctx tables (some ancestor) t options true)).best?.isSome
    refine chain_isSome _ _ ?_ (gwc_isSome _ _ _ _ _ _)
    split_ifs with hra
    · exact chain_isSome _ _ (gwch_isSome _ _ _ _ _ _) (generateParent_isSome _ _)
    · exact gwch_isSome _ _ _ _ _ _
  · rw [if_neg hat]
    show ((if relative ≠ ancestor then
        (generateWithChaining ctx tables root relative options true).chain
          (generateParent relative ancestor)
      else generateWithChaining ctx tables root relative options true)).best?.isSome
    split_ifs with hra
    · exact chain_isSome _ _ (gwch_isSome _ _ _ _ _ _) (generateParent_isSome _ _)
    · exact gwch_isSome _ _ _ _ _ _

/-- `_generateWithRelatives` only holds well-formed candidates when the
target lies strictly inside the scope. -/
theorem gwr_collOK (ctx : Ctx) (tables : IndexTables) (root : Option EPath)
    (t : EPath) (options : GenOptions) (h : scopeOK root t) :
    collOK (generateWithRelatives ctx tables root t options) := by
  unfold generateWithRelatives
  refine foldl_collOK_mem _ _ ?_ _ collOK_empty
  intro col ancestor hmem hcol
  show collOK ((shallowDescendants ctx ancestor 4 100 []).foldl
    (fun result relative =>
      result.updateWithCollection
        (match (if ancestor ≠ t then
              some (generateWithoutChaining ctx tables (some ancestor) t options true)
            else none) with
          | some lm =>
            ((if relative ≠ ancestor then
                (generateWithChaining ctx tables root relative options true).chain
                  (generateParent relative ancestor)
              else generateWithChaining ctx tables root relative options true)).chain lm
          | none =>
            (if relative ≠ ancestor then
                (generateWithChaining ctx tables root relative options true).chain
                  (generateParent relative ancestor)
              else generateWithChaining ctx tables root relative options true)))
    col)
  have hanc := scopeOK_of_mem_chain root t ancestor h hmem
  refine foldl_collOK_mem _ _ ?_ _ hcol
  intro c relative hrel hc
  apply collOK_updateColl _ _ hc
  have hrel2 := mem_shallowDescendants ctx 4 ancestor 100 [] relative hrel
  have hrelin : pathIn ancestor relative = true := by
    rcases hrel2 with h0 | h0
    · cases h0
    · exact h0
  have hsrel : scopeOK root relative := by
    intro r hr
    obtain ⟨h1, h2⟩ := hanc r hr
    refine ⟨pathIn_trans r ancestor relative h1 hrelin, ?_⟩
    intro hre
    have hlt := pathIn_lt_of_ne r ancestor h1 h2
    have hle := pathIn_length_le ancestor relative hrelin
    have hlen := congrArg List.length hre
    omega
  by_cases hat : ancestor ≠ t
  · rw [if_pos hat]
    show collOK (((if relative ≠ ancestor then
        (generateWithChaining ctx tables root relative options true).chain
          (generateParent relative ancestor)
      else generateWithChaining ctx tables root relative options true)).chain
      (generateWithoutChaining ctx tables (some ancestor) t options true))
    apply collOK_chain
    · split_ifs with hra
      · exact collOK_chain _ _ (gwch_collOK _ _ _ _ _ _ hsrel) (generateParent_collOK _ _)
      · exact gwch_collOK _ _ _ _ _ _ hsrel
    · obtain ⟨ha1, ha2, ha3⟩ := mem_ancestorsFrom_some root t ancestor hmem
      exact gwc_collOK _ _ _ _ _ _ (fallbackOK_of_parent ancestor t ha1 hat)
  · rw [if_neg hat]
    show collOK ((if relative ≠ ancestor then
        (generateWithChaining ctx tables root relative options true).chain
          (generateParent relative ancestor)
      else generateWithChaining ctx tables root relative options true))
    split_ifs with hra
    · exact collOK_chain _ _ (gwch_collOK _ _ _ _ _ _ hsrel) (generateParent_collOK _ _)
    · exact gwch_collOK _ _ _ _ _ _ hsrel

theorem best_exists_of (col : SelectorCandidateCollection) (hOK : collOK col)
    (hSome : col.best?.isSome) : ∃ c, col.best? = some c ∧ c.selector ≠ "" := by
  cases hb : col.best? with
  | none => rw [hb] at hSome; simp at hSome
  | some c => exact ⟨c, rfl, selector_ne_of_candOK c (hOK c hb)⟩

/-- The body of `generateSelector` (after the option mutation) always returns
a result with a non-empty selector when no action-retargeting is requested
and the target lies strictly inside the scope. -/
theorem gse_ok (ctx : Ctx) (t : EPath) (options : GenOptions)
    (h1 : options.retargetForAction = false) (h2 : scopeOK options.root t) :
    ∃ res, generateSelectorEffective ctx t options = some res ∧ res.selector ≠ "" := by
  have hroot : options.root ≠ some t := fun heq => (h2 _ heq).2 rfl
  have hbase0 : collOK (SelectorCandidateCollection.empty.updateWithCollection
      (generateWithRelatives ctx (preprocessTree ctx options.root t options) options.root t
        options)) :=
    collOK_updateColl _ _ collOK_empty (gwr_collOK _ _ _ _ _ h2)
  have hbase1 : (SelectorCandidateCollection.empty.updateWithCollection
      (generateWithRelatives ctx (preprocessTree ctx options.root t options) options.root t
        options)).best?.isSome :=
    updateColl_isSome_of_other _ _ (gwr_isSome _ _ _ _ _ hroot)
  have hOK : collOK (if options.retargetForText = true then
      (ancestorsFrom options.root (parentOf t)).foldl
        (fun result parent =>
          if parent = t then
            result.updateWithCollection
              (generateWithRelatives ctx (preprocessTree ctx options.root t options)
                options.root parent options)
          else result)
        (SelectorCandidateCollection.empty.updateWithCollection
          (generateWithRelatives ctx (preprocessTree ctx options.root t options) options.root t
            options))
    else
      SelectorCandidateCollection.empty.updateWithCollection
        (generateWithRelatives ctx (preprocessTree ctx options.root t options) options.root t
          options)) := by
    split_ifs with hrt
    · refine foldl_collOK_mem _ _ ?_ _ hbase0
      intro col parent hmem hcol
      split_ifs with hpt
      · exact collOK_updateColl _ _ hcol
          (gwr_collOK _ _ _ _ _ (scopeOK_of_mem_parentOf options.root t parent h2 hmem))
      · exact hcol
    · exact hbase0
  have hSome : (if options.retargetForText = true then
      (ancestorsFrom options.root (parentOf t)).foldl
        (fun result parent =>
          if parent = t then
            result.updateWithCollection
              (generateWithRelatives ctx (preprocessTree ctx options.root t options)
                options.root parent options)
          else result)
        (SelectorCandidateCollection.empty.updateWithCollection
          (generateWithRelatives ctx (preprocessTree ctx options.root t options) options.root t
            options))
    else
      SelectorCandidateCollection.empty.updateWithCollection
        (generateWithRelatives ctx (preprocessTree ctx options.root t options) options.root t
          options)).best?.isSome := by
    split_ifs with hrt
    · refine foldl_best_isSome_preserve _ ?_ _ _ hbase1
      intro col parent hc
      split_ifs with hpt
      · exact updateColl_isSome _ _ hc
      · exact hc
    · exact hbase1
  obtain ⟨c, hc, hcne⟩ := best_exists_of _ hOK hSome
  unfold generateSelectorEffective
  rw [if_neg (show ¬(options.retargetForAction = true) by rw [h1]; exact Bool.false_ne_true)]
  show ∃ res,
    (if options.root = some t then some (⟨":scope", [t]⟩ : GenResult)
     else
       match (if options.retargetForText = true then
           (ancestorsFrom options.root (parentOf t)).foldl
             (fun result parent =>
               if parent = t then
                 result.updateWithCollection
                   (generateWithRelatives ctx (preprocessTree ctx options.root t options)
                     options.root parent options)
               else result)
             (SelectorCandidateCollection.empty.updateWithCollection
               (generateWithRelatives ctx (preprocessTree ctx options.root t options)
                 options.root t options))
         else
           SelectorCandidateCollection.empty.updateWithCollection
             (generateWithRelatives ctx (preprocessTree ctx options.root t options)
               options.root t options)).best? with
       | none => none
       | some c => some ⟨c.selector, ctx.caps.finalQuery c.selector options.root⟩) = some res
    ∧ res.selector ≠ ""
  rw [if_neg hroot, hc]
  exact ⟨⟨c.selector, ctx.caps.finalQuery c.selector options.root⟩, rfl, hcne⟩

/-- C3: for every target element and scope with the target strictly inside
the scope (and no action-retargeting requested), `generateSelector` returns a
result whose selector string is non-empty: every generator's candidates
stringify non-trivially, and when no generator produces a candidate,
`_generateWithoutChaining` adds the lazily-computed structural CSS fallback,
so the final collection's `best()` is always defined and the non-null
assertion on it is valid. -/
theorem claim3_generateSelector_total (ctx : Ctx) (targetElement : EPath)
    (options : GenOptions) (h1 : options.retargetForAction = false)
    (h2 : scopeOK options.root targetElement) :
    ∃ res, SelectorGenerator.generateSelector ctx targetElement options = some res
      ∧ res.selector ≠ "" := by
  unfold SelectorGenerator.generateSelector
  refine gse_ok ctx targetElement (effectiveOptions targetElement options) ?_ ?_
  · exact h1
  · exact h2

/-- Totality witness at the concrete example scope: the hypotheses hold and
the generation succeeds with a non-empty selector. -/
theorem claim3_generateSelector_total_witness :
    exOptions1.retargetForAction = false
    ∧ scopeOK exOptions1.root [0]
    ∧ ∃ res, SelectorGenerator.generateSelector exCtx1 [0] exOptions1 = some res
        ∧ res.selector ≠ "" := by
  have hsc : scopeOK exOptions1.root [0] := by
    intro r hr
    have h0 : some ([] : EPath) = some r := hr
    injection h0 with h0
    subst h0
    exact ⟨by decide, by decide⟩
  exact ⟨by decide, hsc, claim3_generateSelector_total exCtx1 [0] exOptions1 (by decide) hsc⟩

end PWGen
